import Mathlib

/-
Verification of the wikipedia_cleanup change-stream filtering pipeline and
temporal backtesting engine.  The Python sources (wikipedia_cleanup/data_filter.py,
predict.py, predictor.py, random_forest.py) are shallowly embedded below:
pure methods become Lean functions, the stateful FilterStats bookkeeping is
made explicit state passing, timestamps are integers (minutes since an epoch,
a calendar day being 1440 minutes), and operations that can raise in Python
return Except.
-/

/-- Timestamps (python datetime): minutes since an epoch. -/
abbrev DateTime := Int

/-- Calendar-day component of a timestamp (python datetime.date()): floor
division by the number of minutes per day. -/
def dateOf (t : DateTime) : Int := t.fdiv 1440

/-- Modelled from the spec: the ChangeEvent record (wikipedia_cleanup/schema.py,
InfoboxChange, is not under src/).  Fields are the essential attributes the
spec lists and the filter logic reads; the passthrough metadata (author,
revision id, comment, ...) is not consulted by any embedded operation and is
omitted. -/
structure InfoboxChange where
  infobox_key : String
  property_name : String
  value_valid_from : DateTime
  value_valid_to : Option DateTime
  previous_value : Option String
  current_value : Option String
  num_changes : Nat
  deriving DecidableEq, Repr, Inhabited

/-- Sentinel marking unset filter statistics (data_filter.py line 10). -/
def INITIAL_STATS_VALUE : Int := -1

/-- Accounting statistics of one filter instance (data_filter.py, FilterStats). -/
structure FilterStats where
  initial_num_changes : Int
  input_num_changes : Int
  output_num_changes : Int
  deriving DecidableEq, Repr, Inhabited

/-- FilterStats.__init__: all three counters start at the -1 sentinel. -/
def FilterStats.init : FilterStats :=
  { initial_num_changes := INITIAL_STATS_VALUE
    input_num_changes := INITIAL_STATS_VALUE
    output_num_changes := INITIAL_STATS_VALUE }

/-- FilterStats.reset (data_filter.py lines 19-22). -/
def FilterStats.reset (_s : FilterStats) : FilterStats := FilterStats.init

/-- FilterStats.add_stats (data_filter.py lines 38-41): plain element-wise
integer addition, with no special treatment of the -1 sentinel. -/
def FilterStats.add_stats (s other_stats : FilterStats) : FilterStats :=
  { initial_num_changes := s.initial_num_changes + other_stats.initial_num_changes
    input_num_changes := s.input_num_changes + other_stats.input_num_changes
    output_num_changes := s.output_num_changes + other_stats.output_num_changes }

/-- Loop body shared by AbstractDataFilter.filter (lines 58-68) and
MajorityValuePerDayDataFilter.filter (lines 184-196): a single left-to-right
scan holding the accumulated output and the start index of the current run.
A run is flushed through reduceRun only when an event that breaks the run
(per the breaksRun predicate, comparing changes[start_idx] with
changes[end_idx]) is encountered; start_idx then moves to end_idx.  Exactly
as in the source there is no flush after the loop. -/
def groupScan (breaksRun : InfoboxChange → InfoboxChange → Bool)
    (reduceRun : List InfoboxChange → List InfoboxChange)
    (changes : List InfoboxChange) : List InfoboxChange :=
  ((List.range changes.length).foldl
    (fun acc end_idx =>
      if breaksRun (changes.getD acc.2 default) (changes.getD end_idx default) then
        (acc.1 ++ reduceRun ((changes.drop acc.2).take (end_idx - acc.2)), end_idx)
      else acc)
    (([] : List InfoboxChange), 0)).1

/-- Run-break predicate of AbstractDataFilter.filter (lines 61-64): the
(infobox_key, property_name) group key differs. -/
def differentRun (a b : InfoboxChange) : Bool :=
  a.infobox_key != b.infobox_key || a.property_name != b.property_name

/-- Run-break predicate of MajorityValuePerDayDataFilter.filter (lines
187-192): the calendar day of value_valid_from differs, or the
(infobox_key, property_name) group key differs. -/
def differentDayRun (a b : InfoboxChange) : Bool :=
  dateOf a.value_valid_from != dateOf b.value_valid_from
    || a.infobox_key != b.infobox_key || a.property_name != b.property_name

/-- Result of one filter call: the returned change list, the FilterStats the
instance holds afterwards, and whether the reuse warning was printed. -/
structure FilterOutput where
  output : List InfoboxChange
  stats : FilterStats
  warned : Bool
  deriving DecidableEq, Repr

/-- AbstractDataFilter.filter (data_filter.py lines 48-70), with the
instance's FilterStats passed and returned explicitly.  It warns (lines
51-55) exactly when initial_num_changes is not the -1 sentinel, overwrites
the stats, and runs the per-property scan. -/
def AbstractDataFilter.filter (reduceRun : List InfoboxChange → List InfoboxChange)
    (stats : FilterStats) (changes : List InfoboxChange)
    (initial_num_changes : Int) : FilterOutput :=
  let warned := stats.initial_num_changes != INITIAL_STATS_VALUE
  let filtered_changes := groupScan differentRun reduceRun changes
  { output := filtered_changes
    stats :=
      { initial_num_changes := initial_num_changes
        input_num_changes := (changes.length : Int)
        output_num_changes := (filtered_changes.length : Int) }
    warned := warned }

/-- MinNumChangesDataFilter._filter_for_property (lines 169-170). -/
def MinNumChangesDataFilter.filter_for_property (min_number_of_changes : Nat)
    (changes : List InfoboxChange) : List InfoboxChange :=
  if changes.length < min_number_of_changes then [] else changes

/-- Local values_to_occurrences of
MajorityValuePerDayDataFilter._filter_for_property (line 203): the Counter
of current_value, i.e. how often a value occurs in the run. -/
def MajorityValuePerDayDataFilter.values_to_occurrences
    (changes : List InfoboxChange) (v : Option String) : Nat :=
  changes.countP (fun c => c.current_value == v)

/-- Local max_occurrence (lines 204-206): the largest count.  Taking the
maximum over every change's own value count equals taking it over the
distinct values' counts of the Counter. -/
def MajorityValuePerDayDataFilter.max_occurrence (changes : List InfoboxChange) : Nat :=
  (changes.map (fun c =>
    MajorityValuePerDayDataFilter.values_to_occurrences changes c.current_value)).foldl
    Nat.max 0

/-- Local representative_change (lines 207-215): the first change of the
reversed run whose value count reaches the maximum (next over a python
filter of reversed(changes)). -/
def MajorityValuePerDayDataFilter.representative_change
    (changes : List InfoboxChange) : InfoboxChange :=
  (changes.reverse.find?
    (fun c => MajorityValuePerDayDataFilter.values_to_occurrences changes c.current_value
        ≥ MajorityValuePerDayDataFilter.max_occurrence changes)).getD default

/-- MajorityValuePerDayDataFilter._filter_for_property (lines 200-219): a
run of length 1 passes through; otherwise one representative event is
emitted with value_valid_to, value_valid_from and num_changes overwritten
(lines 216-218). -/
def MajorityValuePerDayDataFilter.filter_for_property
    (changes : List InfoboxChange) : List InfoboxChange :=
  if changes.length == 1 then [changes.getD 0 default]
  else
    [{ MajorityValuePerDayDataFilter.representative_change changes with
        value_valid_to := (changes.getLastD default).value_valid_to
        value_valid_from := (changes.headD default).value_valid_from
        num_changes := changes.length }]

/-- MajorityValuePerDayDataFilter.filter (lines 179-198): same stats
bookkeeping as the base class but, unlike it, without the reuse-warning
check, and a scan whose runs additionally break on a new calendar day. -/
def MajorityValuePerDayDataFilter.filter (stats : FilterStats)
    (changes : List InfoboxChange) (initial_num_changes : Int) : FilterOutput :=
  let _ := stats
  let filtered_changes :=
    groupScan differentDayRun MajorityValuePerDayDataFilter.filter_for_property changes
  { output := filtered_changes
    stats :=
      { initial_num_changes := initial_num_changes
        input_num_changes := (changes.length : Int)
        output_num_changes := (filtered_changes.length : Int) }
    warned := false }

/-- DiscardAttributesDataFilter.filter (lines 93-125): sets all three
counters to initial_num_changes, rewrites every change into a sparse copy
(all fields modelled here are in its kept attribute set, so the copy is
field-for-field), and performs no reuse-warning check. -/
def DiscardAttributesDataFilter.filter (stats : FilterStats)
    (changes : List InfoboxChange) (initial_num_changes : Int) : FilterOutput :=
  let _ := stats
  { output := changes.map (fun change =>
      { infobox_key := change.infobox_key
        property_name := change.property_name
        value_valid_from := change.value_valid_from
        value_valid_to := change.value_valid_to
        previous_value := change.previous_value
        current_value := change.current_value
        num_changes := change.num_changes })
    stats :=
      { initial_num_changes := initial_num_changes
        input_num_changes := initial_num_changes
        output_num_changes := initial_num_changes }
    warned := false }

/-- TestDiscardAttributesDataFilter.filter (lines 132-155): identical stats
behavior to DiscardAttributesDataFilter (all three counters set to
initial_num_changes, no reuse-warning check), keeping a smaller attribute
set that still contains every field modelled here. -/
def TestDiscardAttributesDataFilter.filter (stats : FilterStats)
    (changes : List InfoboxChange) (initial_num_changes : Int) : FilterOutput :=
  let _ := stats
  { output := changes.map (fun change =>
      { infobox_key := change.infobox_key
        property_name := change.property_name
        value_valid_from := change.value_valid_from
        value_valid_to := change.value_valid_to
        previous_value := change.previous_value
        current_value := change.current_value
        num_changes := change.num_changes })
    stats :=
      { initial_num_changes := initial_num_changes
        input_num_changes := initial_num_changes
        output_num_changes := initial_num_changes }
    warned := false }

/-- Loop of AbstractRevertsDataFilter._filter_for_property (lines 229-254):
while idx < len(changes) - 1, a matching pair (tested with the policy
predicate in both orders) is dropped, the previously kept event (if any)
getting its value_valid_to replaced by the maximum of the non-null entries
of [changes[idx].value_valid_to, changes[idx].value_valid_to] (the source
reads changes[idx] twice), and idx advances by 2; otherwise changes[idx] is
kept and idx advances by 1.  After the loop the last event is appended when
idx stopped short of the end. -/
def AbstractRevertsDataFilter.filterForPropertyFrom
    (needs : InfoboxChange → InfoboxChange → Bool)
    (changes : List InfoboxChange)
    (filtered_changes : List InfoboxChange) (idx : Nat) : List InfoboxChange :=
  if h : idx < changes.length - 1 then
    if needs (changes.getD idx default) (changes.getD (idx + 1) default)
        || needs (changes.getD (idx + 1) default) (changes.getD idx default) then
      let filtered_next :=
        if 0 < filtered_changes.length then
          let dates :=
            ([(changes.getD idx default).value_valid_to,
              (changes.getD idx default).value_valid_to]).filterMap id
          filtered_changes.dropLast
            ++ [{ filtered_changes.getLastD default with value_valid_to := dates.max? }]
        else filtered_changes
      AbstractRevertsDataFilter.filterForPropertyFrom needs changes filtered_next (idx + 2)
    else
      AbstractRevertsDataFilter.filterForPropertyFrom needs changes
        (filtered_changes ++ [changes.getD idx default]) (idx + 1)
  else
    if idx < changes.length then filtered_changes ++ [changes.getLastD default]
    else filtered_changes
  termination_by changes.length - idx
  decreasing_by
  · omega
  · omega

/-- AbstractRevertsDataFilter._filter_for_property, entered with an empty
kept list and idx = 0. -/
def AbstractRevertsDataFilter.filter_for_property
    (needs : InfoboxChange → InfoboxChange → Bool)
    (changes : List InfoboxChange) : List InfoboxChange :=
  AbstractRevertsDataFilter.filterForPropertyFrom needs changes [] 0

/-- BotRevertsDataFilter.change_pair_needs_to_be_filtered (lines 257-266).
value_valid_to is nullable; a null never equals the (non-null)
value_valid_from of another change. -/
def BotRevertsDataFilter.change_pair_needs_to_be_filtered
    (change_a change_b : InfoboxChange) : Bool :=
  change_a.current_value == change_b.previous_value
    && change_a.previous_value == change_b.current_value
    && change_a.value_valid_to == some change_b.value_valid_from
    && some change_a.value_valid_from == change_a.value_valid_to

/-- One data filter as seen by the stats-merging helpers: its class name
(used for the order check) and its recorded FilterStats. -/
structure DataFilterInstance where
  className : String
  stats : FilterStats
  deriving DecidableEq, Repr, Inhabited

/-- Body of the inner loop of merge_filter_stats_into (lines 312-316), for
one (idx, filter) pair of the enumerate: a class-name mismatch raises
ValueError, an index past the end of target_filters raises IndexError;
otherwise the filter's stats are added into the target at that position. -/
def mergeStep (tgt : List DataFilterInstance) (p : Nat × DataFilterInstance) :
    Except String (List DataFilterInstance) :=
  if h : p.1 < tgt.length then
    if p.2.className != (tgt.get ⟨p.1, h⟩).className then
      .error "Expected all filters to have the same order."
    else
      .ok (tgt.set p.1
        { tgt.get ⟨p.1, h⟩ with
            stats := (tgt.get ⟨p.1, h⟩).stats.add_stats p.2.stats })
  else .error "IndexError: list index out of range"

/-- Inner loop of merge_filter_stats_into: for idx, filter in
enumerate(filters). -/
def mergeChain (tgt : List DataFilterInstance) (filters : List DataFilterInstance) :
    Except String (List DataFilterInstance) :=
  filters.enum.foldlM mergeStep tgt

/-- merge_filter_stats_into (data_filter.py lines 305-316): every chain after
the first is folded into target_filters. -/
def merge_filter_stats_into (list_of_filters : List (List DataFilterInstance))
    (target_filters : List DataFilterInstance) :
    Except String (List DataFilterInstance) :=
  if list_of_filters.length == 0 then .ok target_filters
  else (list_of_filters.drop 1).foldlM mergeChain target_filters

/-- Numbers appearing in FilterStats.__str__ (lines 24-36): the three
counters, the two deletion counts, and the three percentages (python float
division, modelled exactly over the rationals). -/
structure RenderedStats where
  initial_num_changes : Int
  input_num_changes : Int
  output_num_changes : Int
  num_total_deletions : Int
  num_self_deletions : Int
  pct_filtered_total : ℚ
  pct_filtered_current : ℚ
  pct_filtered_self_total : ℚ
  deriving DecidableEq, Repr

/-- Successful rendering of FilterStats.__str__. -/
def FilterStats.renderOk (s : FilterStats) : RenderedStats :=
  let num_total_deletions := s.initial_num_changes - s.output_num_changes
  let num_self_deletions := s.input_num_changes - s.output_num_changes
  { initial_num_changes := s.initial_num_changes
    input_num_changes := s.input_num_changes
    output_num_changes := s.output_num_changes
    num_total_deletions := num_total_deletions
    num_self_deletions := num_self_deletions
    pct_filtered_total := (num_total_deletions : ℚ) / (s.initial_num_changes : ℚ) * 100
    pct_filtered_current := (num_self_deletions : ℚ) / (s.input_num_changes : ℚ) * 100
    pct_filtered_self_total := (num_self_deletions : ℚ) / (s.initial_num_changes : ℚ) * 100 }

/-- FilterStats.__str__ (lines 24-36): dividing by a zero
initial_num_changes or input_num_changes raises ZeroDivisionError. -/
def FilterStats.render (s : FilterStats) : Except String RenderedStats :=
  if s.initial_num_changes == 0 || s.input_num_changes == 0 then
    .error "ZeroDivisionError: division by zero"
  else .ok s.renderOk

/-- AbstractDataFilter.__str__ (lines 80-86): the class-name banner followed
by the rendered stats. -/
def DataFilterInstance.render (f : DataFilterInstance) :
    Except String (String × RenderedStats) := do
  let r ← f.stats.render
  pure (f.className, r)

/-- get_stats_from_filters (data_filter.py lines 319-335), modelled as the
warning flag plus the per-filter blocks (in chain order) instead of one
concatenated string. -/
def get_stats_from_filters (filters : List DataFilterInstance) :
    Except String (Bool × List (String × RenderedStats)) :=
  if filters.length == 0 then .ok (false, [])
  else
    let initial_num_changes := (filters.headD default).stats.initial_num_changes
    let warn := filters.any
      (fun data_filter => data_filter.stats.initial_num_changes != initial_num_changes)
    do
      let blocks ← filters.mapM DataFilterInstance.render
      pure (warn, blocks)

/-- Explicit-state form of the scan loop shared by the filters: out is the
accumulated output, start_idx the start of the current run, end_idx the loop
index; identical to the foldl in groupScan. -/
def scanGo (breaksRun : InfoboxChange → InfoboxChange → Bool)
    (reduceRun : List InfoboxChange → List InfoboxChange)
    (changes : List InfoboxChange) (out : List InfoboxChange)
    (start_idx end_idx : Nat) : List InfoboxChange × Nat :=
  if _h : end_idx < changes.length then
    if breaksRun (changes.getD start_idx default) (changes.getD end_idx default) then
      scanGo breaksRun reduceRun changes
        (out ++ reduceRun ((changes.drop start_idx).take (end_idx - start_idx)))
        end_idx (end_idx + 1)
    else scanGo breaksRun reduceRun changes out start_idx (end_idx + 1)
  else (out, start_idx)
  termination_by changes.length - end_idx
  decreasing_by
  · omega
  · omega

theorem scanGo_eq (breaksRun : InfoboxChange → InfoboxChange → Bool)
    (reduceRun : List InfoboxChange → List InfoboxChange)
    (changes : List InfoboxChange) (out : List InfoboxChange)
    (start_idx end_idx : Nat) :
    scanGo breaksRun reduceRun changes out start_idx end_idx =
      if end_idx < changes.length then
        (if breaksRun (changes.getD start_idx default) (changes.getD end_idx default) then
          scanGo breaksRun reduceRun changes
            (out ++ reduceRun ((changes.drop start_idx).take (end_idx - start_idx)))
            end_idx (end_idx + 1)
        else scanGo breaksRun reduceRun changes out start_idx (end_idx + 1))
      else (out, start_idx) := by
  by_cases h : end_idx < changes.length
  · rw [scanGo, dif_pos h, if_pos h]
  · rw [scanGo, dif_neg h, if_neg h]

theorem scanGo_eq_foldl (breaksRun : InfoboxChange → InfoboxChange → Bool)
    (reduceRun : List InfoboxChange → List InfoboxChange)
    (changes : List InfoboxChange) :
    ∀ (m k : Nat) (out : List InfoboxChange) (start_idx : Nat),
      k + m = changes.length →
      (List.range' k m).foldl
        (fun acc end_idx =>
          if breaksRun (changes.getD acc.2 default) (changes.getD end_idx default) then
            (acc.1 ++ reduceRun ((changes.drop acc.2).take (end_idx - acc.2)), end_idx)
          else acc)
        (out, start_idx)
      = scanGo breaksRun reduceRun changes out start_idx k := by
  intro m
  induction m with
  | zero =>
    intro k out start_idx hk
    rw [scanGo_eq, if_neg (by omega)]
    rfl
  | succ m2 ih =>
    intro k out start_idx hk
    have hklt : k < changes.length := by omega
    have hr : List.range' k (m2 + 1) = k :: List.range' (k + 1) m2 := rfl
    rw [hr, List.foldl_cons]
    by_cases hb : breaksRun (changes.getD start_idx default)
        (changes.getD k default) = true
    · rw [if_pos hb, ih (k + 1) _ k (by omega)]
      conv_rhs => rw [scanGo_eq]
      rw [if_pos hklt, if_pos hb]
    · rw [if_neg hb, ih (k + 1) out start_idx (by omega)]
      conv_rhs => rw [scanGo_eq]
      rw [if_pos hklt, if_neg hb]

theorem groupScan_eq_scanGo (breaksRun : InfoboxChange → InfoboxChange → Bool)
    (reduceRun : List InfoboxChange → List InfoboxChange)
    (changes : List InfoboxChange) :
    groupScan breaksRun reduceRun changes
      = (scanGo breaksRun reduceRun changes [] 0 0).1 := by
  unfold groupScan
  rw [List.range_eq_range',
    scanGo_eq_foldl breaksRun reduceRun changes changes.length 0 [] 0 (by omega)]

theorem scanGo_out_accum (breaksRun : InfoboxChange → InfoboxChange → Bool)
    (reduceRun : List InfoboxChange → List InfoboxChange)
    (changes : List InfoboxChange) :
    ∀ (m k : Nat) (out : List InfoboxChange) (start_idx : Nat),
      changes.length - k = m →
      scanGo breaksRun reduceRun changes out start_idx k
        = ((out ++ (scanGo breaksRun reduceRun changes [] start_idx k).1),
            (scanGo breaksRun reduceRun changes [] start_idx k).2) := by
  intro m
  induction m with
  | zero =>
    intro k out start_idx hk
    rw [scanGo_eq, if_neg (by omega), scanGo_eq, if_neg (by omega)]
    simp
  | succ m2 ih =>
    intro k out start_idx hk
    have hklt : k < changes.length := by omega
    by_cases hb : breaksRun (changes.getD start_idx default)
        (changes.getD k default) = true
    · rw [scanGo_eq, if_pos hklt, if_pos hb]
      conv_rhs => rw [scanGo_eq]
      rw [if_pos hklt, if_pos hb]
      rw [ih (k + 1) _ k (by omega)]
      conv_rhs => rw [ih (k + 1) _ k (by omega)]
      simp
    · rw [scanGo_eq, if_pos hklt, if_neg hb]
      conv_rhs => rw [scanGo_eq]
      rw [if_pos hklt, if_neg hb]
      exact ih (k + 1) out start_idx (by omega)

theorem scanGo_shift (breaksRun : InfoboxChange → InfoboxChange → Bool)
    (reduceRun : List InfoboxChange → List InfoboxChange)
    (pre cur : List InfoboxChange) :
    ∀ (m k s : Nat) (out : List InfoboxChange),
      cur.length - k = m →
      scanGo breaksRun reduceRun (pre ++ cur) out (pre.length + s) (pre.length + k)
        = ((scanGo breaksRun reduceRun cur out s k).1,
            pre.length + (scanGo breaksRun reduceRun cur out s k).2) := by
  intro m
  induction m with
  | zero =>
    intro k s out hk
    rw [scanGo_eq, if_neg (by simp; omega)]
    conv_rhs => rw [scanGo_eq]
    rw [if_neg (by omega)]
  | succ m2 ih =>
    intro k s out hk
    have hklt : k < cur.length := by omega
    have hgs : (pre ++ cur).getD (pre.length + s) default = cur.getD s default := by
      simp [List.getD_eq_getElem?_getD, List.getElem?_append_right]
    have hgk : (pre ++ cur).getD (pre.length + k) default = cur.getD k default := by
      simp [List.getD_eq_getElem?_getD, List.getElem?_append_right]
    have hslice : ((pre ++ cur).drop (pre.length + s)).take
        ((pre.length + k) - (pre.length + s)) = (cur.drop s).take (k - s) := by
      rw [List.drop_append s]
      congr 1
      omega
    by_cases hb : breaksRun (cur.getD s default) (cur.getD k default) = true
    · rw [scanGo_eq, if_pos (by simp; omega), hgs, hgk, if_pos hb, hslice]
      have hsucc : pre.length + k + 1 = pre.length + (k + 1) := by omega
      rw [hsucc, ih (k + 1) k _ (by omega)]
      conv_rhs => rw [scanGo_eq]
      rw [if_pos hklt, if_pos hb]
    · rw [scanGo_eq, if_pos (by simp; omega), hgs, hgk, if_neg hb]
      have hsucc : pre.length + k + 1 = pre.length + (k + 1) := by omega
      rw [hsucc, ih (k + 1) s out (by omega)]
      conv_rhs => rw [scanGo_eq]
      rw [if_pos hklt, if_neg hb]

theorem headD_eq_getD_zero (l : List InfoboxChange) :
    l.headD default = l.getD 0 default := by
  cases l <;> rfl

theorem scanGo_skip_run (breaksRun : InfoboxChange → InfoboxChange → Bool)
    (reduceRun : List InfoboxChange → List InfoboxChange)
    (run rest : List InfoboxChange) (hne : run ≠ [])
    (hrun : ∀ d ∈ run, breaksRun (run.headD default) d = false) :
    ∀ (m j : Nat) (out : List InfoboxChange), run.length - j = m → j ≤ run.length →
      scanGo breaksRun reduceRun (run ++ rest) out 0 j
        = scanGo breaksRun reduceRun (run ++ rest) out 0 run.length := by
  have hrunpos : 0 < run.length := List.length_pos.mpr hne
  intro m
  induction m with
  | zero =>
    intro j out hm hj
    have : j = run.length := by omega
    rw [this]
  | succ m2 ih =>
    intro j out hm hj
    have hjlt : j < run.length := by omega
    rw [scanGo_eq, if_pos (by simp; omega)]
    have hg0 : (run ++ rest).getD 0 default = run.headD default := by
      rw [List.getD_append run rest default 0 hrunpos, headD_eq_getD_zero]
    have hgj : (run ++ rest).getD j default = run.getD j default := by
      rw [List.getD_append run rest default j hjlt]
    rw [hg0, hgj]
    have hmem : run.getD j default ∈ run := by
      rw [List.getD_eq_getElem _ _ hjlt]
      exact List.getElem_mem hjlt
    rw [if_neg (by rw [hrun _ hmem]; simp)]
    exact ih (j + 1) out (by omega) (by omega)

/-- The scan peels off the leading maximal run: if the whole input is one
run the scan returns nothing at all, and if the input continues with a
run-breaking event, the scan emits the reduction of the leading run and
continues exactly as the scan of the remainder.  Iterating the two
equations shows the scan returns the concatenated reductions of every
maximal run except the final one, which is always discarded. -/
theorem groupScan_run_split (breaksRun : InfoboxChange → InfoboxChange → Bool)
    (reduceRun : List InfoboxChange → List InfoboxChange)
    (run rest : List InfoboxChange) (hne : run ≠ [])
    (hrun : ∀ d ∈ run, breaksRun (run.headD default) d = false) :
    (rest = [] → groupScan breaksRun reduceRun (run ++ rest) = [])
      ∧ (rest ≠ [] →
          breaksRun (run.headD default) (rest.headD default) = true →
          breaksRun (rest.headD default) (rest.headD default) = false →
          groupScan breaksRun reduceRun (run ++ rest)
            = reduceRun run ++ groupScan breaksRun reduceRun rest) := by
  have hrunpos : 0 < run.length := List.length_pos.mpr hne
  constructor
  · intro hrest
    subst hrest
    rw [groupScan_eq_scanGo,
      scanGo_skip_run breaksRun reduceRun run [] hne hrun (run.length - 0) 0 []
        rfl (by omega),
      scanGo_eq, if_neg (by simp)]
  · intro hrest hbr hirr
    have hrestpos : 0 < rest.length := List.length_pos.mpr hrest
    rw [groupScan_eq_scanGo,
      scanGo_skip_run breaksRun reduceRun run rest hne hrun (run.length - 0) 0 []
        rfl (by omega),
      scanGo_eq, if_pos (by simp; omega)]
    have hg0 : (run ++ rest).getD 0 default = run.headD default := by
      rw [List.getD_append run rest default 0 hrunpos, headD_eq_getD_zero]
    have hgr : (run ++ rest).getD run.length default = rest.headD default := by
      have h1 : (run ++ rest).getD (run.length + 0) default = rest.getD 0 default := by
        simp [List.getD_eq_getElem?_getD, List.getElem?_append_right]
      simpa [List.headD_eq_head?_getD, List.head?_eq_getElem?] using h1
    rw [hg0, hgr, if_pos hbr]
    rw [List.drop_zero, Nat.sub_zero, List.take_left, List.nil_append]
    have hshift := scanGo_shift breaksRun reduceRun run rest (rest.length - 1) 1 0
      (reduceRun run) rfl
    simp only [Nat.add_zero] at hshift
    rw [hshift]
    rw [scanGo_out_accum breaksRun reduceRun rest (rest.length - 1) 1
      (reduceRun run) 0 rfl]
    rw [groupScan_eq_scanGo]
    have hstep0 : scanGo breaksRun reduceRun rest [] 0 0
        = scanGo breaksRun reduceRun rest [] 0 1 := by
      rw [scanGo_eq, if_pos hrestpos]
      rw [headD_eq_getD_zero] at hirr
      rw [if_neg (by rw [hirr]; simp)]
    rw [hstep0]

theorem length_dropWhile_le_length (p : InfoboxChange → Bool) :
    ∀ l : List InfoboxChange, (l.dropWhile p).length ≤ l.length := by
  intro l
  induction l with
  | nil => simp [List.dropWhile]
  | cons x xs ih =>
    by_cases hp : p x = true
    · rw [List.dropWhile_cons_of_pos hp]
      simp only [List.length_cons]
      omega
    · rw [List.dropWhile_cons_of_neg (by simpa using hp)]

/-- Canonical maximal-run partition of a change list: each run starts at its
head event and extends while the break predicate (compared against the run
head, as the scan does) stays false. -/
def runsBy (breaksRun : InfoboxChange → InfoboxChange → Bool) :
    List InfoboxChange → List (List InfoboxChange)
  | [] => []
  | c :: cs =>
    (c :: cs.takeWhile (fun d => !breaksRun c d))
      :: runsBy breaksRun (cs.dropWhile (fun d => !breaksRun c d))
  termination_by l => l.length
  decreasing_by
  · simp only [List.length_cons]
    have := length_dropWhile_le_length (fun d => !breaksRun c d) cs
    omega

theorem runsBy_nil (breaksRun : InfoboxChange → InfoboxChange → Bool) :
    runsBy breaksRun [] = [] := by
  rw [runsBy.eq_def]

theorem runsBy_cons (breaksRun : InfoboxChange → InfoboxChange → Bool)
    (c : InfoboxChange) (cs : List InfoboxChange) :
    runsBy breaksRun (c :: cs)
      = (c :: cs.takeWhile (fun d => !breaksRun c d))
        :: runsBy breaksRun (cs.dropWhile (fun d => !breaksRun c d)) := by
  rw [runsBy.eq_def]

theorem dropWhile_head_not (p : InfoboxChange → Bool) :
    ∀ l : List InfoboxChange, l.dropWhile p ≠ [] →
      p ((l.dropWhile p).headD default) = false := by
  intro l
  induction l with
  | nil => simp [List.dropWhile]
  | cons x xs ih =>
    by_cases hp : p x = true
    · rw [List.dropWhile_cons_of_pos hp]
      exact ih
    · rw [List.dropWhile_cons_of_neg (by simpa using hp)]
      intro _
      simp only [List.headD_cons]
      simpa using hp

/-- The scan of the filters returns the concatenation, in input order, of
the per-run reductions of every maximal run of the input except the final
one, which it always discards (there is no flush after the loop). -/
theorem groupScan_drops_exactly_final_run
    (breaksRun : InfoboxChange → InfoboxChange → Bool)
    (reduceRun : List InfoboxChange → List InfoboxChange)
    (hirrefl : ∀ c, breaksRun c c = false) :
    ∀ (n : Nat) (changes : List InfoboxChange), changes.length = n →
      groupScan breaksRun reduceRun changes
        = ((runsBy breaksRun changes).dropLast.map reduceRun).flatten := by
  intro n
  induction n using Nat.strong_induction_on with
  | _ n ih =>
    intro changes hn
    cases changes with
    | nil =>
      rw [runsBy_nil]
      unfold groupScan
      simp
    | cons c cs =>
      have hsplit : (c :: cs.takeWhile (fun d => !breaksRun c d))
          ++ cs.dropWhile (fun d => !breaksRun c d) = c :: cs := by
        rw [List.cons_append, List.takeWhile_append_dropWhile]
      have hrun : ∀ d ∈ c :: cs.takeWhile (fun d => !breaksRun c d),
          breaksRun ((c :: cs.takeWhile (fun d => !breaksRun c d)).headD default) d
            = false := by
        intro d hd
        simp only [List.headD_cons]
        rcases List.mem_cons.mp hd with rfl | hd2
        · exact hirrefl d
        · have := List.mem_takeWhile_imp hd2
          simpa using this
      have hpeel := groupScan_run_split breaksRun reduceRun
        (c :: cs.takeWhile (fun d => !breaksRun c d))
        (cs.dropWhile (fun d => !breaksRun c d)) (by simp) hrun
      rw [← hsplit]
      by_cases hrest : cs.dropWhile (fun d => !breaksRun c d) = []
      · rw [hpeel.1 hrest, hsplit, runsBy_cons, hrest, runsBy_nil]
        simp
      · have hbr : breaksRun
            ((c :: cs.takeWhile (fun d => !breaksRun c d)).headD default)
            ((cs.dropWhile (fun d => !breaksRun c d)).headD default) = true := by
          simp only [List.headD_cons]
          have := dropWhile_head_not (fun d => !breaksRun c d) cs hrest
          simpa using this
        have hirr2 : breaksRun
            ((cs.dropWhile (fun d => !breaksRun c d)).headD default)
            ((cs.dropWhile (fun d => !breaksRun c d)).headD default) = false :=
          hirrefl _
        rw [hpeel.2 hrest hbr hirr2]
        have hlen : (cs.dropWhile (fun d => !breaksRun c d)).length < n := by
          have := length_dropWhile_le_length (fun d => !breaksRun c d) cs
          simp only [← hn, List.length_cons]
          omega
        rw [ih _ hlen _ rfl, hsplit, runsBy_cons]
        have hrne : runsBy breaksRun (cs.dropWhile (fun d => !breaksRun c d)) ≠ [] := by
          cases hcd : cs.dropWhile (fun d => !breaksRun c d) with
          | nil => exact absurd hcd hrest
          | cons y ys => rw [runsBy_cons]; simp
        rw [List.dropLast_cons_of_ne_nil hrne, List.map_cons, List.flatten_cons]

theorem differentRun_self (c : InfoboxChange) : differentRun c c = false := by
  simp [differentRun]

theorem differentDayRun_self (c : InfoboxChange) : differentDayRun c c = false := by
  simp [differentDayRun]

/-- Five changes that form one single maximal (infobox_key, property_name)
run: the whole input is the final run of the scan. -/
def c1_run : List InfoboxChange :=
  (List.range 5).map (fun i =>
    { infobox_key := "a"
      property_name := "p"
      value_valid_from := (1440 * i : Int)
      value_valid_to := none
      previous_value := none
      current_value := some "v"
      num_changes := 1 })

/-- One change on day 0 followed by two same-key changes on day 1: the day-1
run is the final run of the per-day scan. -/
def c1_day0 : InfoboxChange :=
  { infobox_key := "a", property_name := "p", value_valid_from := 0,
    value_valid_to := none, previous_value := none, current_value := some "1",
    num_changes := 1 }

def c1_day1a : InfoboxChange :=
  { infobox_key := "a", property_name := "p", value_valid_from := 1440,
    value_valid_to := none, previous_value := none, current_value := some "1",
    num_changes := 1 }

def c1_day1b : InfoboxChange :=
  { infobox_key := "a", property_name := "p", value_valid_from := 1500,
    value_valid_to := none, previous_value := none, current_value := some "2",
    num_changes := 1 }

/-- C1.  The per-property scan never flushes the final run: on a globally
sorted list forming one single maximal run of five changes,
MinNumChangesDataFilter (threshold 5) returns the empty list even though the
per-run reduction would pass the run through unchanged, and the per-day scan
of MajorityValuePerDayDataFilter likewise drops its final (day-1) run, even
though that run's reduction is non-empty.  In general (last two conjuncts),
the output of both scans is exactly the concatenation, in input order, of
the per-run reductions of every maximal run EXCEPT the final one, which is
always discarded.  This refutes the claim that the returned list is the
concatenation of the per-run reduction over every run including the final
one. -/
theorem c1_final_run_dropped :
    (AbstractDataFilter.filter (MinNumChangesDataFilter.filter_for_property 5)
        FilterStats.init c1_run 5).output = []
      ∧ c1_run.length = 5
      ∧ MinNumChangesDataFilter.filter_for_property 5 c1_run = c1_run
      ∧ (∀ a ∈ c1_run, ∀ b ∈ c1_run, differentRun a b = false)
      ∧ (MajorityValuePerDayDataFilter.filter FilterStats.init
          [c1_day0, c1_day1a, c1_day1b] 3).output = [c1_day0]
      ∧ MajorityValuePerDayDataFilter.filter_for_property [c1_day1a, c1_day1b] ≠ []
      ∧ (∀ (reduceRun : List InfoboxChange → List InfoboxChange)
          (stats : FilterStats) (changes : List InfoboxChange) (n : Int),
          (AbstractDataFilter.filter reduceRun stats changes n).output
            = ((runsBy differentRun changes).dropLast.map reduceRun).flatten)
      ∧ (∀ (stats : FilterStats) (changes : List InfoboxChange) (n : Int),
          (MajorityValuePerDayDataFilter.filter stats changes n).output
            = ((runsBy differentDayRun changes).dropLast.map
                MajorityValuePerDayDataFilter.filter_for_property).flatten) := by
  refine ⟨by decide, by decide, by decide, by decide, by decide, by decide, ?_, ?_⟩
  · intro reduceRun stats changes n
    exact groupScan_drops_exactly_final_run differentRun reduceRun
      differentRun_self changes.length changes rfl
  · intro stats changes n
    exact groupScan_drops_exactly_final_run differentDayRun
      MajorityValuePerDayDataFilter.filter_for_property
      differentDayRun_self changes.length changes rfl

/-- Previously kept event of the C3 run: its transition 0 → 1 pairs with
neither neighbour. -/
def c3_p : InfoboxChange :=
  { infobox_key := "a", property_name := "p", value_valid_from := 480,
    value_valid_to := some 540, previous_value := some "0",
    current_value := some "1", num_changes := 1 }

/-- Event A of the spec's example: 1 → 2, valid 09:00-09:00 (minute 540). -/
def c3_a : InfoboxChange :=
  { infobox_key := "a", property_name := "p", value_valid_from := 540,
    value_valid_to := some 540, previous_value := some "1",
    current_value := some "2", num_changes := 1 }

/-- Event B of the spec's example: 2 → 1, valid 09:00-09:05 (minute 545). -/
def c3_b : InfoboxChange :=
  { infobox_key := "a", property_name := "p", value_valid_from := 540,
    value_valid_to := some 545, previous_value := some "2",
    current_value := some "1", num_changes := 1 }

/-- C3.  On the run [P, A, B] with (A, B) a bot-revert pair, the code keeps P
but sets its value_valid_to to A's value_valid_to (09:00, minute 540) - it
computes the maximum of [changes[idx].value_valid_to,
changes[idx].value_valid_to], reading the first dropped event twice - while
the claim and spec require the maximum of the two dropped events'
timestamps, 09:05 (minute 545).  The other parts of the claim behave as
stated: the pair matches the policy predicate, and with only the two
matching events and no prior kept event the result is empty. -/
theorem c3_kept_event_not_extended_to_max :
    AbstractRevertsDataFilter.filter_for_property
        BotRevertsDataFilter.change_pair_needs_to_be_filtered [c3_p, c3_a, c3_b]
      = [{ c3_p with value_valid_to := some 540 }]
      ∧ ([c3_a.value_valid_to, c3_b.value_valid_to].filterMap id).max? = some 545
      ∧ BotRevertsDataFilter.change_pair_needs_to_be_filtered c3_a c3_b = true
      ∧ AbstractRevertsDataFilter.filter_for_property
          BotRevertsDataFilter.change_pair_needs_to_be_filtered [c3_a, c3_b] = [] := by
  refine ⟨?_, by decide, by decide, ?_⟩
  · simp [AbstractRevertsDataFilter.filter_for_property,
      AbstractRevertsDataFilter.filterForPropertyFrom,
      BotRevertsDataFilter.change_pair_needs_to_be_filtered, c3_p, c3_a, c3_b]
  · simp [AbstractRevertsDataFilter.filter_for_property,
      AbstractRevertsDataFilter.filterForPropertyFrom,
      BotRevertsDataFilter.change_pair_needs_to_be_filtered, c3_a, c3_b]

/-- Input used to exhibit a silent (unwarned) filter reuse. -/
def c7_changes : List InfoboxChange := [c1_day0, c1_day1a, c1_day1b]

/-- C7, counterexample.  Calling MajorityValuePerDayDataFilter.filter a
second time without resetting the stats does not emit the warning, although
the recorded stats are not the unset sentinel: its override of filter skips
the reuse check of the base class. -/
theorem c7_counterexample_majority_reuse_silent :
    (MajorityValuePerDayDataFilter.filter FilterStats.init c7_changes 3).stats.initial_num_changes
        ≠ INITIAL_STATS_VALUE
      ∧ (MajorityValuePerDayDataFilter.filter
          (MajorityValuePerDayDataFilter.filter FilterStats.init c7_changes 3).stats
          c7_changes 3).warned = false := by
  exact ⟨by decide, rfl⟩

/-- C7, amended.  Re-running any filter never raises and always overwrites
the previously recorded stats, but only filters that inherit
AbstractDataFilter.filter (the minimum-activity and reverts filters) emit
the reuse warning - exactly when the recorded initial_num_changes is not the
-1 sentinel; MajorityValuePerDayDataFilter and the attribute-projection
filters overwrite silently, never warning. -/
theorem c7_amended_reuse_warning_only_in_base_filter :
    (∀ reduceRun stats changes n,
        (AbstractDataFilter.filter reduceRun stats changes n).warned
            = (stats.initial_num_changes != INITIAL_STATS_VALUE)
          ∧ (AbstractDataFilter.filter reduceRun stats changes n).stats.initial_num_changes = n
          ∧ (AbstractDataFilter.filter reduceRun stats changes n).stats.input_num_changes
              = (changes.length : Int))
      ∧ (∀ stats changes n,
          (MajorityValuePerDayDataFilter.filter stats changes n).warned = false
            ∧ (MajorityValuePerDayDataFilter.filter stats changes n).stats.initial_num_changes = n
            ∧ (MajorityValuePerDayDataFilter.filter stats changes n).stats.input_num_changes
                = (changes.length : Int))
      ∧ (∀ stats changes n,
          (DiscardAttributesDataFilter.filter stats changes n).warned = false
            ∧ (DiscardAttributesDataFilter.filter stats changes n).stats.initial_num_changes = n
            ∧ (DiscardAttributesDataFilter.filter stats changes n).stats.input_num_changes = n)
      ∧ (∀ stats changes n,
          (TestDiscardAttributesDataFilter.filter stats changes n).warned = false
            ∧ (TestDiscardAttributesDataFilter.filter stats changes n).stats.initial_num_changes
                = n) :=
  ⟨fun _ _ _ _ => ⟨rfl, rfl, rfl⟩, fun _ _ _ => ⟨rfl, rfl, rfl⟩,
    fun _ _ _ => ⟨rfl, rfl, rfl⟩, fun _ _ _ => ⟨rfl, rfl⟩⟩

/-- C10.  merge_filter_stats_into never reads the first chain: replacing it
changes nothing; FilterStats.add_stats is plain element-wise integer
addition with no handling of the -1 sentinel; consequently merging a chain
whose stats were never set (all counters -1) silently decrements every
counter of the target by one. -/
theorem c10_merge_skips_first_chain_and_adds_blindly :
    (∀ (chain0 chain0' : List DataFilterInstance) rest target_filters,
        merge_filter_stats_into (chain0 :: rest) target_filters
          = merge_filter_stats_into (chain0' :: rest) target_filters)
      ∧ (∀ s o : FilterStats,
          (s.add_stats o).initial_num_changes = s.initial_num_changes + o.initial_num_changes
            ∧ (s.add_stats o).input_num_changes = s.input_num_changes + o.input_num_changes
            ∧ (s.add_stats o).output_num_changes = s.output_num_changes + o.output_num_changes)
      ∧ (∀ (chain0 : List DataFilterInstance) (nm : String) (a b c : Int),
          merge_filter_stats_into
              [chain0, [⟨nm, ⟨-1, -1, -1⟩⟩]] [⟨nm, ⟨a, b, c⟩⟩]
            = .ok [⟨nm, ⟨a - 1, b - 1, c - 1⟩⟩]) := by
  refine ⟨fun _ _ _ _ => rfl, fun _ _ => ⟨rfl, rfl, rfl⟩, fun chain0 nm a b c => ?_⟩
  simp [merge_filter_stats_into, mergeChain, mergeStep, List.foldlM, List.enum,
    FilterStats.add_stats]
  constructor <;> omega

/-- Two same-class filters whose recorded initial counts disagree, the first
being zero. -/
def c8_zero_filters : List DataFilterInstance :=
  [⟨"MinNumChangesDataFilter", ⟨0, 0, 0⟩⟩, ⟨"MinNumChangesDataFilter", ⟨5, 5, 5⟩⟩]

/-- C8, counterexample.  get_stats_from_filters applied to same-order
filters whose initial_num_changes disagree can raise: rendering a filter
whose initial (and input) count is zero divides by zero, so the call errors
instead of returning a report.  The inputs are same-order (equal class
names) and their initial counts disagree, yet no report is produced. -/
theorem c8_counterexample_zero_division :
    get_stats_from_filters c8_zero_filters
        = .error "ZeroDivisionError: division by zero"
      ∧ (c8_zero_filters.map DataFilterInstance.className)
          = ["MinNumChangesDataFilter", "MinNumChangesDataFilter"]
      ∧ (c8_zero_filters.getD 0 default).stats.initial_num_changes
          ≠ (c8_zero_filters.getD 1 default).stats.initial_num_changes := by
  refine ⟨?_, by decide, by decide⟩
  rfl

theorem exceptErrorBind {ε α β : Type} (e : ε) (f : α → Except ε β) :
    (Except.error e >>= f) = Except.error e := rfl

theorem exceptOkBind {ε α β : Type} (a : α) (f : α → Except ε β) :
    (Except.ok a >>= f) = f a := rfl

theorem mergeStep_ok_preserves (tgt tgt2 : List DataFilterInstance)
    (p : Nat × DataFilterInstance) (h : mergeStep tgt p = .ok tgt2) :
    tgt2.length = tgt.length
      ∧ tgt2.map DataFilterInstance.className = tgt.map DataFilterInstance.className := by
  unfold mergeStep at h
  split at h
  · split at h
    · exact absurd h (by simp)
    · obtain rfl : tgt.set p.1 _ = tgt2 := by injection h
      refine ⟨by simp, ?_⟩
      rw [List.map_set]
      apply List.ext_getElem (by simp)
      intro i h1 h2
      simp only [List.getElem_set, List.getElem_map]
      split
      · next heq => subst heq; rfl
      · rfl
  · exact absurd h (by simp)

theorem foldlM_mergeStep_ok_preserves :
    ∀ (ps : List (Nat × DataFilterInstance)) (tgt tgt2 : List DataFilterInstance),
      ps.foldlM mergeStep tgt = .ok tgt2 →
      tgt2.length = tgt.length
        ∧ tgt2.map DataFilterInstance.className = tgt.map DataFilterInstance.className := by
  intro ps
  induction ps with
  | nil =>
    intro tgt tgt2 h
    obtain rfl : tgt = tgt2 := by injection h
    exact ⟨rfl, rfl⟩
  | cons p ps ih =>
    intro tgt tgt2 h
    rw [List.foldlM_cons] at h
    cases hstep : mergeStep tgt p with
    | error e => rw [hstep, exceptErrorBind] at h; exact absurd h (by simp)
    | ok mid =>
      rw [hstep, exceptOkBind] at h
      obtain ⟨l1, l2⟩ := ih mid tgt2 h
      obtain ⟨m1, m2⟩ := mergeStep_ok_preserves tgt mid p hstep
      exact ⟨l1.trans m1, l2.trans m2⟩

theorem foldlM_mergeStep_error :
    ∀ (ps : List (Nat × DataFilterInstance)) (tgt : List DataFilterInstance),
      (∃ p ∈ ps, tgt.length ≤ p.1
          ∨ ∃ h : p.1 < tgt.length, p.2.className ≠ tgt[p.1].className) →
      ∃ msg, ps.foldlM mergeStep tgt = .error msg := by
  intro ps
  induction ps with
  | nil => intro tgt h; simp at h
  | cons p ps ih =>
    intro tgt hbad
    rw [List.foldlM_cons]
    cases hstep : mergeStep tgt p with
    | error e => exact ⟨e, by rw [exceptErrorBind]⟩
    | ok mid =>
      rw [exceptOkBind]
      obtain ⟨m1, m2⟩ := mergeStep_ok_preserves tgt mid p hstep
      apply ih
      rcases hbad with ⟨q, hq, hcase⟩
      rcases List.mem_cons.mp hq with rfl | hq2
      · exfalso
        unfold mergeStep at hstep
        rcases hcase with hoob | ⟨hlt, hne⟩
        · rw [dif_neg (by omega)] at hstep; exact absurd hstep (by simp)
        · have hcond : (q.2.className != (tgt.get ⟨q.1, hlt⟩).className) = true := by
            simpa using hne
          rw [dif_pos hlt, if_pos hcond] at hstep
          exact absurd hstep (by simp)
      · rcases hcase with hoob | ⟨hlt, hne⟩
        · exact ⟨q, hq2, Or.inl (by omega)⟩
        · have hmidlen : q.1 < mid.length := by omega
          refine ⟨q, hq2, Or.inr ⟨hmidlen, ?_⟩⟩
          have hcn := congrArg (fun l => l[q.1]?) m2
          simp only [List.getElem?_map] at hcn
          rw [List.getElem?_eq_getElem hmidlen, List.getElem?_eq_getElem hlt] at hcn
          simp at hcn
          rw [hcn]
          exact hne

theorem foldlM_mergeChain_error :
    ∀ (chains : List (List DataFilterInstance)) (tgt : List DataFilterInstance),
      (∃ chain ∈ chains, ∃ i, ∃ h : i < chain.length, ∃ h2 : i < tgt.length,
          chain[i].className ≠ tgt[i].className) →
      ∃ msg, chains.foldlM mergeChain tgt = .error msg := by
  intro chains
  induction chains with
  | nil => intro tgt h; simp at h
  | cons c cs ih =>
    intro tgt hbad
    rw [List.foldlM_cons]
    cases hstep : mergeChain tgt c with
    | error e => exact ⟨e, by rw [exceptErrorBind]⟩
    | ok mid =>
      rw [exceptOkBind]
      obtain ⟨m1, m2⟩ := foldlM_mergeStep_ok_preserves c.enum tgt mid hstep
      apply ih
      rcases hbad with ⟨chain, hchain, i, h, h2, hne⟩
      rcases List.mem_cons.mp hchain with rfl | hchain2
      · exfalso
        obtain ⟨msg, hmsg⟩ := foldlM_mergeStep_error chain.enum tgt
          ⟨(i, chain[i]),
            List.mk_mem_enum_iff_getElem?.mpr (List.getElem?_eq_getElem h),
            Or.inr ⟨h2, hne⟩⟩
        rw [mergeChain] at hstep
        rw [hstep] at hmsg
        exact absurd hmsg (by simp)
      · have hmidlen : i < mid.length := by omega
        refine ⟨chain, hchain2, i, h, hmidlen, ?_⟩
        have hcn := congrArg (fun l => l[i]?) m2
        simp only [List.getElem?_map] at hcn
        rw [List.getElem?_eq_getElem hmidlen, List.getElem?_eq_getElem h2] at hcn
        simp at hcn
        rw [hcn]
        exact hne

theorem mapM_render_ok (filters : List DataFilterInstance)
    (hz : ∀ f ∈ filters,
        f.stats.initial_num_changes ≠ 0 ∧ f.stats.input_num_changes ≠ 0) :
    filters.mapM DataFilterInstance.render
      = .ok (filters.map (fun f => (f.className, f.stats.renderOk))) := by
  induction filters with
  | nil => rfl
  | cons f fs ih =>
    have hf := hz f (by simp)
    have hrender : f.render = .ok (f.className, f.stats.renderOk) := by
      unfold DataFilterInstance.render FilterStats.render
      rw [if_neg (by simp [hf.1, hf.2])]
      rfl
    rw [List.mapM_cons, hrender, exceptOkBind,
      ih (fun g hg => hz g (List.mem_cons_of_mem f hg)), exceptOkBind]
    rfl

/-- C8, amended.  merge_filter_stats_into raises a hard error whenever one of
the merged chains (index 1 onward) holds a filter of a different class than
the target chain at the same position, while get_stats_from_filters applied
to same-order filters whose recorded initial_num_changes disagree does not
raise provided every filter's recorded initial and input counts are nonzero
(a zero count makes the percentage rendering divide by zero): it prepends a
warning exactly when some filter's initial count differs from the first
filter's, and still renders every filter's numbers, one block per filter in
chain order. -/
theorem c8_amended_merge_fails_fast_report_warns
    (list_of_filters : List (List DataFilterInstance))
    (target_filters : List DataFilterInstance)
    (filters : List DataFilterInstance)
    (hz : ∀ f ∈ filters,
        f.stats.initial_num_changes ≠ 0 ∧ f.stats.input_num_changes ≠ 0) :
    ((∃ chain ∈ list_of_filters.drop 1, ∃ i, ∃ h : i < chain.length,
        ∃ h2 : i < target_filters.length,
          chain[i].className ≠ target_filters[i].className) →
      ∃ msg, merge_filter_stats_into list_of_filters target_filters = .error msg)
    ∧ ∃ warn,
        get_stats_from_filters filters
            = .ok (warn, filters.map (fun f => (f.className, f.stats.renderOk)))
          ∧ (warn = true ↔ ∃ f ∈ filters,
              f.stats.initial_num_changes
                ≠ (filters.headD default).stats.initial_num_changes) := by
  constructor
  · intro hbad
    cases list_of_filters with
    | nil => simp at hbad
    | cons l0 rest =>
      unfold merge_filter_stats_into
      rw [if_neg (by simp)]
      exact foldlM_mergeChain_error _ _ (by simpa using hbad)
  · cases filters with
    | nil => exact ⟨false, rfl, by simp⟩
    | cons f fs =>
      refine ⟨(f :: fs).any (fun g =>
        g.stats.initial_num_changes
          != ((f :: fs).headD default).stats.initial_num_changes), ?_, ?_⟩
      · unfold get_stats_from_filters
        rw [if_neg (by simp)]
        rw [mapM_render_ok _ hz, exceptOkBind]
        rfl
      · simp [List.any_eq_true, bne_iff_ne]

def c8_mismatch_chains : List (List DataFilterInstance) :=
  [[⟨"BotRevertsDataFilter", ⟨7, 7, 7⟩⟩], [⟨"MinNumChangesDataFilter", ⟨7, 7, 7⟩⟩]]

def c8_target : List DataFilterInstance := [⟨"BotRevertsDataFilter", ⟨7, 7, 7⟩⟩]

def c8_report_filters : List DataFilterInstance :=
  [⟨"MinNumChangesDataFilter", ⟨9, 9, 3⟩⟩, ⟨"MinNumChangesDataFilter", ⟨7, 7, 7⟩⟩]

/-- Witness for C8 at concrete inputs: a mismatched second chain and a
same-order report whose initial counts are nonzero and disagree. -/
theorem c8_amended_witness :
    (∀ f ∈ c8_report_filters,
        f.stats.initial_num_changes ≠ 0 ∧ f.stats.input_num_changes ≠ 0)
    ∧ (((∃ chain ∈ c8_mismatch_chains.drop 1, ∃ i, ∃ h : i < chain.length,
          ∃ h2 : i < c8_target.length,
            chain[i].className ≠ c8_target[i].className) →
        ∃ msg, merge_filter_stats_into c8_mismatch_chains c8_target = .error msg)
      ∧ ∃ warn,
          get_stats_from_filters c8_report_filters
              = .ok (warn, c8_report_filters.map
                  (fun f => (f.className, f.stats.renderOk)))
            ∧ (warn = true ↔ ∃ f ∈ c8_report_filters,
                f.stats.initial_num_changes
                  ≠ (c8_report_filters.headD default).stats.initial_num_changes)) :=
  ⟨by decide, c8_amended_merge_fails_fast_report_warns
    c8_mismatch_chains c8_target c8_report_filters (by decide)⟩

theorem le_foldl_max_init (l : List Nat) (a : Nat) : a ≤ l.foldl Nat.max a := by
  induction l generalizing a with
  | nil => exact Nat.le_refl a
  | cons x xs ih => exact Nat.le_trans (Nat.le_max_left a x) (ih (Nat.max a x))

theorem mem_le_foldl_max (l : List Nat) (a x : Nat) (hx : x ∈ l) :
    x ≤ l.foldl Nat.max a := by
  induction l generalizing a with
  | nil => simp at hx
  | cons y ys ih =>
    rcases List.mem_cons.mp hx with rfl | hmem
    · exact Nat.le_trans (Nat.le_max_right a x) (le_foldl_max_init ys (Nat.max a x))
    · exact ih (Nat.max a y) hmem

theorem foldl_max_mem (l : List Nat) (a : Nat) :
    l.foldl Nat.max a = a ∨ l.foldl Nat.max a ∈ l := by
  induction l generalizing a with
  | nil => exact Or.inl rfl
  | cons y ys ih =>
    rcases ih (Nat.max a y) with h | h
    · rw [List.foldl_cons, h]
      rcases Nat.le_total y a with hm | hm
      · exact Or.inl (Nat.max_eq_left hm)
      · have hy : a.max y = y := Nat.max_eq_right hm
        rw [hy]
        exact Or.inr (List.mem_cons_self y ys)
    · exact Or.inr (List.mem_cons_of_mem y h)

theorem find_eq_some_split {α : Type} (p : α → Bool) :
    ∀ (l : List α) (a : α), l.find? p = some a →
      p a = true ∧ ∃ l1 l2, l = l1 ++ a :: l2 ∧ ∀ b ∈ l1, p b = false := by
  intro l
  induction l with
  | nil => intro a h; simp [List.find?] at h
  | cons x xs ih =>
    intro a h
    by_cases hp : p x = true
    · rw [List.find?_cons_of_pos _ hp] at h
      obtain rfl : x = a := by injection h
      exact ⟨hp, [], xs, rfl, by simp⟩
    · rw [List.find?_cons_of_neg _ (by simpa using hp)] at h
      obtain ⟨hpa, l1, l2, rfl, hl1⟩ := ih a h
      refine ⟨hpa, x :: l1, l2, rfl, ?_⟩
      intro b hb
      rcases List.mem_cons.mp hb with rfl | hb2
      · simpa using hp
      · exact hl1 b hb2

/-- C4.  On a same-day run of length at least 2, the reduction emits exactly
one event: a copy of the latest-occurring event whose current_value count is
maximal in the run (every later event's value has a strictly smaller count,
every value's count is at most its count), with value_valid_from stretched
to the first event's start, value_valid_to to the last event's end and
num_changes set to the run length; a run of length 1 passes through
unchanged; and the run [v=1, v=2, v=2] yields current_value 2 with
num_changes 3. -/
theorem c4_majority_reduction (changes : List InfoboxChange)
    (h2 : 2 ≤ changes.length)
    (_hday : ∀ c ∈ changes,
        dateOf c.value_valid_from = dateOf (changes.headD default).value_valid_from) :
    (∀ c, MajorityValuePerDayDataFilter.filter_for_property [c] = [c])
      ∧ (∃ pre base post,
          changes = pre ++ base :: post
            ∧ MajorityValuePerDayDataFilter.filter_for_property changes
                = [{ base with
                    value_valid_to := (changes.getLastD default).value_valid_to
                    value_valid_from := (changes.headD default).value_valid_from
                    num_changes := changes.length }]
            ∧ (∀ c ∈ changes,
                MajorityValuePerDayDataFilter.values_to_occurrences changes c.current_value
                  ≤ MajorityValuePerDayDataFilter.values_to_occurrences changes
                      base.current_value)
            ∧ (∀ c ∈ post,
                MajorityValuePerDayDataFilter.values_to_occurrences changes c.current_value
                  < MajorityValuePerDayDataFilter.values_to_occurrences changes
                      base.current_value))
      ∧ (∀ x1 x2 x3 : InfoboxChange,
          x1.current_value = some "1" → x2.current_value = some "2" →
          x3.current_value = some "2" →
          (MajorityValuePerDayDataFilter.filter_for_property [x1, x2, x3]).map
              (fun r => (r.current_value, r.num_changes,
                r.value_valid_from, r.value_valid_to))
            = [(some "2", 3, x1.value_valid_from, x3.value_valid_to)]) := by
  refine ⟨fun c => rfl, ?_, ?_⟩
  · have hne : changes ≠ [] := List.ne_nil_of_length_pos (by omega)
    have hle : ∀ c ∈ changes,
        MajorityValuePerDayDataFilter.values_to_occurrences changes c.current_value
          ≤ MajorityValuePerDayDataFilter.max_occurrence changes := by
      intro c hc
      exact mem_le_foldl_max _ 0 _ (List.mem_map_of_mem _ hc)
    have hattain : ∃ c ∈ changes,
        MajorityValuePerDayDataFilter.values_to_occurrences changes c.current_value
          = MajorityValuePerDayDataFilter.max_occurrence changes := by
      rcases foldl_max_mem (changes.map (fun c =>
          MajorityValuePerDayDataFilter.values_to_occurrences changes c.current_value)) 0
        with h0 | hmem
      · exfalso
        obtain ⟨c0, hc0⟩ := List.exists_mem_of_ne_nil changes hne
        have h1 : 0 < MajorityValuePerDayDataFilter.values_to_occurrences
            changes c0.current_value :=
          List.countP_pos_iff.mpr ⟨c0, hc0, by simp⟩
        have hb := hle c0 hc0
        rw [MajorityValuePerDayDataFilter.max_occurrence] at hb
        omega
      · obtain ⟨c, hc, hceq⟩ := List.mem_map.mp hmem
        exact ⟨c, hc, hceq⟩
    cases hf : changes.reverse.find? (fun c =>
        MajorityValuePerDayDataFilter.values_to_occurrences changes c.current_value
          ≥ MajorityValuePerDayDataFilter.max_occurrence changes) with
    | none =>
      exfalso
      obtain ⟨c, hc, hceq⟩ := hattain
      have hnone := List.find?_eq_none.mp hf c (List.mem_reverse.mpr hc)
      simp only [decide_eq_true_eq, ge_iff_le, not_le] at hnone
      omega
    | some base =>
      obtain ⟨hpbase, l1, l2, hsplit, hl1⟩ := find_eq_some_split _ _ _ hf
      have hbasemem : base ∈ changes := by
        rw [← List.mem_reverse, hsplit]
        simp
      have hbase_max : MajorityValuePerDayDataFilter.values_to_occurrences
          changes base.current_value = MajorityValuePerDayDataFilter.max_occurrence changes := by
        have h1 : MajorityValuePerDayDataFilter.max_occurrence changes
            ≤ MajorityValuePerDayDataFilter.values_to_occurrences
                changes base.current_value := by
          simpa [ge_iff_le] using hpbase
        exact Nat.le_antisymm (hle base hbasemem) h1
      refine ⟨l2.reverse, base, l1.reverse, ?_, ?_, ?_, ?_⟩
      · have hrev := congrArg List.reverse hsplit
        simpa using hrev
      · unfold MajorityValuePerDayDataFilter.filter_for_property
        rw [if_neg (by simp; omega)]
        unfold MajorityValuePerDayDataFilter.representative_change
        rw [hf]
        rfl
      · intro c hc
        rw [hbase_max]
        exact hle c hc
      · intro c hc
        have hcl1 : c ∈ l1 := by simpa using hc
        have hfail := hl1 c hcl1
        simp only [decide_eq_true_eq, ge_iff_le, not_le] at hfail
        have : MajorityValuePerDayDataFilter.values_to_occurrences
            changes c.current_value < MajorityValuePerDayDataFilter.max_occurrence changes := by
          simpa using hfail
        rw [← hbase_max] at this
        exact this
  · intro x1 x2 x3 h1 h2 h3
    simp [MajorityValuePerDayDataFilter.filter_for_property,
      MajorityValuePerDayDataFilter.representative_change,
      MajorityValuePerDayDataFilter.max_occurrence,
      MajorityValuePerDayDataFilter.values_to_occurrences,
      List.countP_cons, h1, h2, h3]

/-- Same-day run with values [1, 2, 2] (all on day 0). -/
def c4_run : List InfoboxChange :=
  [{ infobox_key := "a", property_name := "p", value_valid_from := 0,
     value_valid_to := some 5, previous_value := none, current_value := some "1",
     num_changes := 1 },
   { infobox_key := "a", property_name := "p", value_valid_from := 10,
     value_valid_to := some 20, previous_value := some "1", current_value := some "2",
     num_changes := 1 },
   { infobox_key := "a", property_name := "p", value_valid_from := 30,
     value_valid_to := some 40, previous_value := some "2", current_value := some "2",
     num_changes := 1 }]

/-- Witness for C4 at the concrete same-day run [v=1, v=2, v=2]. -/
theorem c4_majority_reduction_witness :
    2 ≤ c4_run.length
      ∧ (∀ c ∈ c4_run,
          dateOf c.value_valid_from = dateOf (c4_run.headD default).value_valid_from)
      ∧ ((∀ c, MajorityValuePerDayDataFilter.filter_for_property [c] = [c])
        ∧ (∃ pre base post,
            c4_run = pre ++ base :: post
              ∧ MajorityValuePerDayDataFilter.filter_for_property c4_run
                  = [{ base with
                      value_valid_to := (c4_run.getLastD default).value_valid_to
                      value_valid_from := (c4_run.headD default).value_valid_from
                      num_changes := c4_run.length }]
              ∧ (∀ c ∈ c4_run,
                  MajorityValuePerDayDataFilter.values_to_occurrences c4_run c.current_value
                    ≤ MajorityValuePerDayDataFilter.values_to_occurrences c4_run
                        base.current_value)
              ∧ (∀ c ∈ post,
                  MajorityValuePerDayDataFilter.values_to_occurrences c4_run c.current_value
                    < MajorityValuePerDayDataFilter.values_to_occurrences c4_run
                        base.current_value))
        ∧ (∀ x1 x2 x3 : InfoboxChange,
            x1.current_value = some "1" → x2.current_value = some "2" →
            x3.current_value = some "2" →
            (MajorityValuePerDayDataFilter.filter_for_property [x1, x2, x3]).map
                (fun r => (r.current_value, r.num_changes,
                  r.value_valid_from, r.value_valid_to))
              = [(some "2", 3, x1.value_valid_from, x3.value_valid_to)])) :=
  ⟨by decide, by decide, c4_majority_reduction c4_run (by decide) (by decide)⟩

/-- Binary search of the python standard library (bisect.bisect_left) on the
slice a[lo:hi], as invoked by get_data_until: the loop narrows [lo, hi)
around the insertion point of x, moving lo past midpoints holding values
smaller than x. -/
def bisectLeftFrom (a : List Int) (x : Int) (lo hi : Nat) : Nat :=
  if _h : lo < hi then
    if a.getD ((lo + hi) / 2) 0 < x then bisectLeftFrom a x ((lo + hi) / 2 + 1) hi
    else bisectLeftFrom a x lo ((lo + hi) / 2)
  else lo
  termination_by hi - lo
  decreasing_by
  · omega
  · omega

/-- bisect.bisect_left(a, x): first index whose element is not less than x,
for a sorted a. -/
def bisect_left (a : List Int) (x : Int) : Nat := bisectLeftFrom a x 0 a.length

/-- TrainAndPredictFramework.get_data_until (predict.py lines 287-295): for
non-empty data, the prefix data[:offset] where offset is the bisect_left
insertion point of the cutoff timestamp in the (parallel, sorted) timestamp
array; empty data is returned as is. -/
def get_data_until {α : Type} (data : List α) (timestamps : List Int)
    (timestamp : Int) : List α :=
  if 0 < data.length then data.take (bisect_left timestamps timestamp) else data

/-- self.testing_timeframes (predict.py line 35). -/
def testing_timeframes : List Nat := [1, 7, 30, 365]

/-- Local test_dates of calculate_test_date_metadata (predict.py lines
152-155), with dates as day numbers: test_duration consecutive days from
test_start_date. -/
def test_dates (test_start_date : Int) (test_duration : Nat) : List Int :=
  (List.range test_duration).map (fun x => test_start_date + Nat.cast x)

/-- Local test_dates_with_testing_timeframes of
calculate_test_date_metadata (lines 157-171): per test date, the
(timeframe, prediction_end_date, timeframe_idx) triples of the horizons
that fire on it - horizon timeframe fires on day index days_evaluated iff
days_evaluated mod timeframe == 0, and its prediction end date is the date
plus the timeframe. -/
def test_dates_with_testing_timeframes (test_start_date : Int)
    (test_duration : Nat) : List (Int × List (Nat × Int × Nat)) :=
  (test_dates test_start_date test_duration).enum.map
    (fun de =>
      (de.2, testing_timeframes.enum.filterMap
        (fun it =>
          if de.1 % it.2 == 0 then some (it.2, de.2 + (it.2 : Int), it.1) else none)))

/-- TrainAndPredictFramework.calculate_test_date_metadata (predict.py lines
149-174). -/
def calculate_test_date_metadata (test_start_date : Int) (test_duration : Nat) :
    List Int × List (Int × List (Nat × Int × Nat)) :=
  (test_dates test_start_date test_duration,
    test_dates_with_testing_timeframes test_start_date test_duration)

/-- Body of the inner loop of TrainAndPredictFramework.make_prediction
(predict.py lines 318-332), for one (timeframe, prediction_end_date,
timeframe_idx) triple tf on test date first_day_to_predict: the related
history is cut off at the prediction end date, the target history at the
test date itself (the source computes the target slice once per date before
this loop; recomputing it per triple is identical), and the predictor's
boolean is appended to the timeframe's prediction list. -/
def make_prediction_step {α : Type}
    (predict_timeframe : List α → List α → List String → Int → Nat → Bool)
    (current_data : List α) (timestamps : List Int)
    (related_current_data : List α) (additional_timestamps : List Int)
    (columns : List String) (first_day_to_predict : Int)
    (current_page_predictions : List (List Bool)) (tf : Nat × Int × Nat) :
    List (List Bool) :=
  current_page_predictions.set tf.2.2
    (current_page_predictions.getD tf.2.2 []
      ++ [predict_timeframe
            (get_data_until current_data timestamps first_day_to_predict)
            (get_data_until related_current_data additional_timestamps tf.2.1)
            columns first_day_to_predict tf.1])

/-- TrainAndPredictFramework.make_prediction (predict.py lines 297-333): one
prediction list per testing timeframe, grown by looping over the
per-test-date metadata and, within a date, over the horizons firing on it. -/
def make_prediction {α : Type}
    (predict_timeframe : List α → List α → List String → Int → Nat → Bool)
    (current_data : List α) (timestamps : List Int)
    (related_current_data : List α) (additional_timestamps : List Int)
    (test_dates_with_testing_timeframes : List (Int × List (Nat × Int × Nat)))
    (columns : List String) : List (List Bool) :=
  test_dates_with_testing_timeframes.foldl
    (fun current_page_predictions dt =>
      dt.2.foldl
        (make_prediction_step predict_timeframe current_data timestamps
          related_current_data additional_timestamps columns dt.1)
        current_page_predictions)
    (testing_timeframes.map (fun _ => []))

/-- Consecutive buckets of length n of a list (the row-wise effect of the
numpy reshape((rows, -1, n)) in aggregate_labels, whose row length is always
a multiple of n after padding). -/
def listChunks {α : Type} (n : Nat) (l : List α) : List (List α) :=
  if _h : l.length = 0 ∨ n = 0 then [] else l.take n :: listChunks n (l.drop n)
  termination_by l.length
  decreasing_by
  · simp only [List.length_drop]
    omega

/-- Padding amount of aggregate_labels (predict.py line 362): the second
np.pad width (n - test_duration) mod n, python modulo and hence
nonnegative. -/
def aggregate_pad (test_duration n : Nat) : Nat :=
  (((n : Int) - (test_duration : Int)) % (n : Int)).toNat

/-- Local padded_labels of aggregate_labels (lines 361-364): rows are padded
at the end with zeros whenever test_duration is not a multiple of n. -/
def aggregate_padded_labels (test_duration : Nat) (labels : List (List Bool))
    (n : Nat) : List (List Bool) :=
  if test_duration % n != 0 then
    labels.map (fun row => row ++ List.replicate (aggregate_pad test_duration n) false)
  else labels

/-- TrainAndPredictFramework.aggregate_labels (predict.py lines 358-366):
horizon 1 returns the label matrix unchanged; otherwise the padded rows are
cut into consecutive buckets of length n (the row-wise reading of the numpy
reshape, the padded row length being a multiple of n) and OR-reduced per
bucket. -/
def aggregate_labels (test_duration : Nat) (labels : List (List Bool)) (n : Nat) :
    List (List Bool) :=
  if n == 1 then labels
  else
    (aggregate_padded_labels test_duration labels n).map
      (fun row => (listChunks n row).map (fun bucket => bucket.any id))

theorem bisectLeftFrom_eq (a : List Int) (x : Int) (lo hi : Nat) :
    bisectLeftFrom a x lo hi =
      if lo < hi then
        (if a.getD ((lo + hi) / 2) 0 < x then bisectLeftFrom a x ((lo + hi) / 2 + 1) hi
         else bisectLeftFrom a x lo ((lo + hi) / 2))
      else lo := by
  by_cases h : lo < hi
  · rw [bisectLeftFrom, dif_pos h, if_pos h]
  · rw [bisectLeftFrom, dif_neg h, if_neg h]

theorem sorted_getD_mono (a : List Int) (hsor : List.Pairwise (· ≤ ·) a)
    (i j : Nat) (hij : i ≤ j) (hj : j < a.length) : a.getD i 0 ≤ a.getD j 0 := by
  rcases Nat.eq_or_lt_of_le hij with rfl | hlt
  · exact Int.le_refl _
  · have hi : i < a.length := Nat.lt_trans hlt hj
    have hrel := List.pairwise_iff_getElem.mp hsor i j hi hj hlt
    rw [List.getD_eq_getElem _ _ hi, List.getD_eq_getElem _ _ hj]
    exact hrel

theorem bisectLeftFrom_inv (a : List Int) (x : Int)
    (hsor : List.Pairwise (· ≤ ·) a) :
    ∀ (n lo hi : Nat), hi - lo = n → lo ≤ hi → hi ≤ a.length →
      (∀ i, i < lo → a.getD i 0 < x) →
      (∀ i, hi ≤ i → i < a.length → ¬ a.getD i 0 < x) →
      bisectLeftFrom a x lo hi ≤ a.length
        ∧ (∀ i, i < bisectLeftFrom a x lo hi → a.getD i 0 < x)
        ∧ (∀ i, bisectLeftFrom a x lo hi ≤ i → i < a.length →
            ¬ a.getD i 0 < x) := by
  intro n
  induction n using Nat.strong_induction_on with
  | _ n ih =>
    intro lo hi hn hlohi hhi hlow hhigh
    rw [bisectLeftFrom_eq]
    by_cases hlt : lo < hi
    · rw [if_pos hlt]
      have hmidlo : lo ≤ (lo + hi) / 2 := by omega
      have hmidhi : (lo + hi) / 2 < hi := by omega
      by_cases hc : a.getD ((lo + hi) / 2) 0 < x
      · rw [if_pos hc]
        apply ih (hi - ((lo + hi) / 2 + 1)) (by omega) ((lo + hi) / 2 + 1) hi rfl
          (by omega) hhi ?_ hhigh
        intro i hi2
        by_cases hilo : i < lo
        · exact hlow i hilo
        · have hile : i ≤ (lo + hi) / 2 := by omega
          have hmono := sorted_getD_mono a hsor i ((lo + hi) / 2) hile (by omega)
          omega
      · rw [if_neg hc]
        apply ih ((lo + hi) / 2 - lo) (by omega) lo ((lo + hi) / 2) rfl
          (by omega) (by omega) hlow ?_
        intro i hmi hlen
        have hmono := sorted_getD_mono a hsor ((lo + hi) / 2) i hmi hlen
        omega
    · rw [if_neg hlt]
      exact ⟨by omega, fun i hi2 => hlow i (by omega),
        fun i h1 h2 => hhigh i (by omega) h2⟩

theorem take_eq_filter_of_bounds {α : Type} [Inhabited α] (f : α → Int) (x : Int) :
    ∀ (data : List α) (r : Nat), r ≤ data.length →
      (∀ i, i < r → f (data.getD i default) < x) →
      (∀ i, r ≤ i → i < data.length → ¬ f (data.getD i default) < x) →
      data.take r = data.filter (fun e => decide (f e < x)) := by
  intro data
  induction data with
  | nil => intro r _ _ _; simp
  | cons d t ih =>
    intro r hr hlow hhigh
    cases r with
    | zero =>
      simp only [List.take_zero]
      refine (List.filter_eq_nil_iff.mpr ?_).symm
      intro e he
      obtain ⟨i, hi, hgi⟩ := List.mem_iff_getElem.mp he
      have hfail := hhigh i (Nat.zero_le i) hi
      rw [List.getD_eq_getElem _ _ hi, hgi] at hfail
      simpa using hfail
    | succ r2 =>
      have hd : f d < x := by
        have := hlow 0 (Nat.succ_pos r2)
        simpa using this
      rw [List.take_succ_cons, List.filter_cons_of_pos (by simpa using hd)]
      congr 1
      apply ih r2 (by simpa using hr) ?_ ?_
      · intro i hi2
        have := hlow (i + 1) (by omega)
        simpa using this
      · intro i h1 h2
        have := hhigh (i + 1) (by omega) (by simpa using h2)
        simpa using this

theorem get_data_until_filter {α : Type} [Inhabited α] (f : α → Int)
    (data : List α) (d : Int)
    (hs : List.Pairwise (· ≤ ·) (data.map f)) :
    get_data_until data (data.map f) d = data.filter (fun e => decide (f e < d)) := by
  cases hdata : data with
  | nil => rfl
  | cons d0 t =>
    rw [← hdata]
    have hne : 0 < data.length := by rw [hdata]; simp
    unfold get_data_until
    rw [if_pos hne]
    have hinv := bisectLeftFrom_inv (data.map f) d hs
      ((data.map f).length - 0) 0 (data.map f).length rfl (Nat.zero_le _)
      (Nat.le_refl _) (by intro i hi0; omega)
      (by intro i h1 h2; omega)
    obtain ⟨hr1, hr2, hr3⟩ := hinv
    have hmapget : ∀ i, i < data.length →
        (data.map f).getD i 0 = f (data.getD i default) := by
      intro i hi
      rw [List.getD_eq_getElem _ _ (by simpa using hi),
        List.getD_eq_getElem _ _ hi, List.getElem_map]
    rw [bisect_left]
    apply take_eq_filter_of_bounds f d data
    · simpa using hr1
    · intro i hi2
      have hlen : (data.map f).length = data.length := by simp
      have hval := hr2 i hi2
      rw [hmapget i (by omega)] at hval
      exact hval
    · intro i h1 h2
      have hval := hr3 i h1 (by simpa using h2)
      rw [hmapget i h2] at hval
      exact hval

theorem metadata_end_dates (s : Int) (L : Nat) :
    ∀ dt ∈ (calculate_test_date_metadata s L).2, ∀ e ∈ dt.2,
      e.2.1 = dt.1 + (e.1 : Int) := by
  intro dt hdt e he
  unfold calculate_test_date_metadata test_dates_with_testing_timeframes at hdt
  simp only [List.mem_map] at hdt
  obtain ⟨de, _hde, rfl⟩ := hdt
  simp only [List.mem_filterMap] at he
  obtain ⟨it, _hit, hsome⟩ := he
  split at hsome
  · obtain rfl : (it.2, de.2 + (it.2 : Int), it.1) = e := by injection hsome
    rfl
  · exact absurd hsome (by simp)

theorem make_prediction_congr {α : Type} [Inhabited α] (f : α → Int)
    (p q : List α → List α → List String → Int → Nat → Bool)
    (current_data related_data : List α) (columns : List String)
    (hsortc : List.Pairwise (· ≤ ·) (current_data.map f))
    (hsortr : List.Pairwise (· ≤ ·) (related_data.map f))
    (hagree : ∀ (target related : List α) (cols : List String) (dd : Int) (h : Nat),
        (∀ e ∈ target, f e < dd) → (∀ e ∈ related, f e < dd + (h : Int)) →
        p target related cols dd h = q target related cols dd h) :
    ∀ (meta : List (Int × List (Nat × Int × Nat))),
      (∀ dt ∈ meta, ∀ e ∈ dt.2, e.2.1 = dt.1 + (e.1 : Int)) →
      ∀ preds,
        meta.foldl (fun cpp dt => dt.2.foldl
          (make_prediction_step p current_data (current_data.map f)
            related_data (related_data.map f) columns dt.1) cpp) preds
          = meta.foldl (fun cpp dt => dt.2.foldl
              (make_prediction_step q current_data (current_data.map f)
                related_data (related_data.map f) columns dt.1) cpp) preds := by
  intro meta
  induction meta with
  | nil => intro _ preds; rfl
  | cons dt rest ih =>
    intro hmeta preds
    simp only [List.foldl_cons]
    have hinner : ∀ (tfs : List (Nat × Int × Nat)),
        (∀ e ∈ tfs, e.2.1 = dt.1 + (e.1 : Int)) →
        ∀ cpp, tfs.foldl (make_prediction_step p current_data (current_data.map f)
            related_data (related_data.map f) columns dt.1) cpp
          = tfs.foldl (make_prediction_step q current_data (current_data.map f)
              related_data (related_data.map f) columns dt.1) cpp := by
      intro tfs
      induction tfs with
      | nil => intro _ cpp; rfl
      | cons e rest2 ih2 =>
        intro hprop cpp
        simp only [List.foldl_cons]
        have hcall :
            p (get_data_until current_data (current_data.map f) dt.1)
                (get_data_until related_data (related_data.map f) e.2.1)
                columns dt.1 e.1
              = q (get_data_until current_data (current_data.map f) dt.1)
                  (get_data_until related_data (related_data.map f) e.2.1)
                  columns dt.1 e.1 := by
          apply hagree
          · intro el hel
            rw [get_data_until_filter f current_data dt.1 hsortc] at hel
            have := List.of_mem_filter hel
            simpa using this
          · intro el hel
            rw [hprop e (List.mem_cons_self e rest2),
              get_data_until_filter f related_data _ hsortr] at hel
            have := List.of_mem_filter hel
            simpa using this
        rw [show make_prediction_step p current_data (current_data.map f)
            related_data (related_data.map f) columns dt.1 cpp e
          = make_prediction_step q current_data (current_data.map f)
              related_data (related_data.map f) columns dt.1 cpp e from by
            unfold make_prediction_step
            rw [hcall]]
        exact ih2 (fun e2 he2 => hprop e2 (List.mem_cons_of_mem e he2)) _
    rw [hinner dt.2 (hmeta dt (List.mem_cons_self dt rest)) preds]
    exact ih (fun dt2 hdt2 => hmeta dt2 (List.mem_cons_of_mem dt hdt2)) _

/-- C2.  For a per-key event list whose (parallel) timestamp array is sorted
ascending, get_data_until returns exactly the events whose timestamp is
strictly below the cutoff - in particular the returned slice holds zero
events at or past the cutoff - and make_prediction driven by the computed
test-date metadata cannot distinguish two predictors that agree on all
no-lookahead inputs: every target slice it passes holds only events before
the as-of date dd, every related slice only events before dd + h. -/
theorem c2_no_lookahead {α : Type} [Inhabited α] (f : α → Int)
    (current_data related_data : List α) (d test_start_date : Int)
    (test_duration : Nat) (columns : List String)
    (p q : List α → List α → List String → Int → Nat → Bool)
    (hsortc : List.Pairwise (· ≤ ·) (current_data.map f))
    (hsortr : List.Pairwise (· ≤ ·) (related_data.map f))
    (hagree : ∀ (target related : List α) (cols : List String) (dd : Int) (h : Nat),
        (∀ e ∈ target, f e < dd) → (∀ e ∈ related, f e < dd + (h : Int)) →
        p target related cols dd h = q target related cols dd h) :
    get_data_until current_data (current_data.map f) d
        = current_data.filter (fun e => decide (f e < d))
      ∧ (∀ e ∈ get_data_until current_data (current_data.map f) d, f e < d)
      ∧ make_prediction p current_data (current_data.map f) related_data
            (related_data.map f)
            (calculate_test_date_metadata test_start_date test_duration).2 columns
          = make_prediction q current_data (current_data.map f) related_data
              (related_data.map f)
              (calculate_test_date_metadata test_start_date test_duration).2 columns := by
  refine ⟨get_data_until_filter f current_data d hsortc, ?_, ?_⟩
  · intro e he
    rw [get_data_until_filter f current_data d hsortc] at he
    simpa using List.of_mem_filter he
  · unfold make_prediction
    exact make_prediction_congr f p q current_data related_data columns hsortc hsortr
      hagree _ (metadata_end_dates test_start_date test_duration) _

/-- Sorted target history used by the C2 witness. -/
def c2_cur : List Int := [5, 10]

/-- Sorted related history used by the C2 witness. -/
def c2_rel : List Int := [3, 20]

/-- Predictor that fires exactly on lookahead data: true iff the target
slice holds an event at or past the as-of date. -/
def c2_p (target : List Int) (_related : List Int) (_cols : List String)
    (dd : Int) (_h : Nat) : Bool :=
  target.any (fun e => dd ≤ e)

/-- Predictor that never fires. -/
def c2_q (_target : List Int) (_related : List Int) (_cols : List String)
    (_dd : Int) (_h : Nat) : Bool :=
  false

theorem c2_agree_on_no_lookahead :
    ∀ (target related : List Int) (cols : List String) (dd : Int) (h : Nat),
      (∀ e ∈ target, (fun x => x) e < dd) →
      (∀ e ∈ related, (fun x => x) e < dd + (h : Int)) →
      c2_p target related cols dd h = c2_q target related cols dd h := by
  intro target related cols dd h h1 _h2
  unfold c2_p c2_q
  rw [List.any_eq_false]
  intro e he
  simpa using Int.not_le.mpr (h1 e he)

/-- Witness for C2 at concrete sorted histories and a two-day test window. -/
theorem c2_no_lookahead_witness :
    List.Pairwise (· ≤ ·) (c2_cur.map (fun x => x))
      ∧ List.Pairwise (· ≤ ·) (c2_rel.map (fun x => x))
      ∧ (get_data_until c2_cur (c2_cur.map (fun x => x)) 7
            = c2_cur.filter (fun e => decide ((fun x => x) e < 7))
          ∧ (∀ e ∈ get_data_until c2_cur (c2_cur.map (fun x => x)) 7, (fun x => x) e < 7)
          ∧ make_prediction c2_p c2_cur (c2_cur.map (fun x => x)) c2_rel
                (c2_rel.map (fun x => x))
                (calculate_test_date_metadata 0 2).2 []
              = make_prediction c2_q c2_cur (c2_cur.map (fun x => x)) c2_rel
                  (c2_rel.map (fun x => x))
                  (calculate_test_date_metadata 0 2).2 []) :=
  ⟨by decide, by decide,
    c2_no_lookahead (fun x => x) c2_cur c2_rel 7 0 2 [] c2_p c2_q
      (by decide) (by decide) c2_agree_on_no_lookahead⟩

theorem listChunks_eq {α : Type} (n : Nat) (l : List α) :
    listChunks n l =
      if l.length = 0 ∨ n = 0 then [] else l.take n :: listChunks n (l.drop n) := by
  by_cases h : l.length = 0 ∨ n = 0
  · rw [listChunks, dif_pos h, if_pos h]
  · rw [listChunks, dif_neg h, if_neg h]

theorem listChunks_length {α : Type} (n : Nat) (hn : 0 < n) :
    ∀ (len : Nat) (l : List α), l.length = len →
      (listChunks n l).length = (l.length + n - 1) / n := by
  intro len
  induction len using Nat.strong_induction_on with
  | _ len ih =>
    intro l hlen
    rw [listChunks_eq]
    by_cases h0 : l.length = 0 ∨ n = 0
    · rw [if_pos h0]
      rcases h0 with h0 | h0
      · rw [h0]
        simp only [List.length_nil]
        exact (Nat.div_eq_of_lt (by omega)).symm
      · omega
    · rw [if_neg h0]
      push_neg at h0
      obtain ⟨hl0, hn0⟩ := h0
      simp only [List.length_cons]
      rw [ih (l.length - n) (by omega) (l.drop n) (by simp), List.length_drop]
      -- remaining goal is the ceiling-division step
      rcases Nat.lt_or_ge n l.length with hlt | hge
      · have h1 : l.length + n - 1 = (l.length - n + n - 1) + n := by omega
        rw [h1, Nat.add_div_right _ hn]
      · have h1 : l.length - n = 0 := by omega
        rw [h1]
        have h2 : (0 + n - 1) / n = 0 := Nat.div_eq_of_lt (by omega)
        have h3 : (l.length + n - 1) / n = 1 := by
          apply Nat.div_eq_of_lt_le
          · omega
          · omega
        omega

theorem listChunks_getD {α : Type} (n : Nat) (hn : 0 < n) :
    ∀ (len : Nat) (l : List α), l.length = len → ∀ j,
      (listChunks n l).getD j [] = (l.drop (j * n)).take n := by
  intro len
  induction len using Nat.strong_induction_on with
  | _ len ih =>
    intro l hlen j
    rw [listChunks_eq]
    by_cases h0 : l.length = 0 ∨ n = 0
    · rw [if_pos h0]
      have hnil : l = [] := by
        rcases h0 with h | h
        · exact List.eq_nil_of_length_eq_zero h
        · omega
      rw [hnil]
      simp
    · rw [if_neg h0]
      push_neg at h0
      cases j with
      | zero => simp
      | succ j2 =>
        simp only [List.getD_cons_succ]
        rw [ih (l.length - n) (by omega) (l.drop n) (by simp) j2, List.drop_drop]
        have harith : n + j2 * n = (j2 + 1) * n := by ring
        rw [harith]

theorem any_replicate_false (k : Nat) :
    (List.replicate k false).any id = false := by
  induction k with
  | zero => rfl
  | succ k2 ih => simp [List.replicate_succ, ih]

theorem any_chunk_pad (h : Nat) (row : List Bool) (pad : Nat) (j : Nat) :
    (((row ++ List.replicate pad false).drop (j * h)).take h).any id
      = ((row.drop (j * h)).take h).any id := by
  rw [List.drop_append_eq_append_drop, List.take_append_eq_append_take,
    List.any_append, List.drop_replicate, List.take_replicate,
    any_replicate_false, Bool.or_false]

theorem chunks_map_any (h : Nat) (hh : 0 < h) (row : List Bool) (pad : Nat)
    (hcount : (listChunks h (row ++ List.replicate pad false)).length
        = (row.length + h - 1) / h) :
    (listChunks h (row ++ List.replicate pad false)).map (fun b => b.any id)
      = (List.range ((row.length + h - 1) / h)).map
          (fun j => ((row.drop (j * h)).take h).any id) := by
  apply List.ext_getElem
  · simp [hcount]
  · intro j h1 h2
    rw [List.getElem_map, List.getElem_map, List.getElem_range]
    have hj : j < (listChunks h (row ++ List.replicate pad false)).length := by
      simpa using h1
    rw [← List.getD_eq_getElem _ ([] : List Bool) hj,
      listChunks_getD h hh _ _ rfl j]
    exact any_chunk_pad h row pad j

theorem pad_toNat (L h : Nat) (hh : 0 < h) (hmod : L % h ≠ 0) :
    (((h : Int) - (L : Int)) % (h : Int)).toNat = h - L % h := by
  have hrlt : L % h < h := Nat.mod_lt L hh
  have hdm : h * (L / h) + L % h = L := Nat.div_add_mod L h
  have h1 : ((h : Int) - L + (h : Int) * ((L / h : Nat) : Int)) % h
      = ((h : Int) - L) % h := by apply Int.add_mul_emod_self_left
  have h2 : (h : Int) - L + (h : Int) * ((L / h : Nat) : Int)
      = ((h - L % h : Nat) : Int) := by
    rw [Nat.cast_sub (Nat.le_of_lt hrlt)]
    have hcast : (L : Int) = (h : Int) * ((L / h : Nat) : Int) + ((L % h : Nat) : Int) := by
      exact_mod_cast congrArg (fun x : Nat => (x : Int)) hdm.symm
    omega
  have h3 : ((h - L % h : Nat) : Int) % h = ((h - L % h : Nat) : Int) := by
    apply Int.emod_eq_of_lt
    · exact Int.natCast_nonneg _
    · exact_mod_cast Nat.sub_lt hh (Nat.pos_of_ne_zero hmod)
  rw [← h1, h2, h3, Int.toNat_natCast]

theorem padded_count (L h : Nat) (hh : 1 < h) (hmod : L % h ≠ 0) :
    (L + (h - L % h) + h - 1) / h = (L + h - 1) / h := by
  have hrlt : L % h < h := Nat.mod_lt L (by omega)
  have hr : 0 < L % h := Nat.pos_of_ne_zero hmod
  have hdm : h * (L / h) + L % h = L := Nat.div_add_mod L h
  have e1 : L + (h - L % h) + h - 1 = (2 * h - 1) + h * (L / h) := by omega
  have e2 : L + h - 1 = (L % h + h - 1) + h * (L / h) := by omega
  rw [e1, e2, Nat.add_mul_div_left _ _ (by omega : 0 < h),
    Nat.add_mul_div_left _ _ (by omega : 0 < h)]
  have d1 : (2 * h - 1) / h = 1 := Nat.div_eq_of_lt_le (by omega) (by omega)
  have d2 : (L % h + h - 1) / h = 1 := Nat.div_eq_of_lt_le (by omega) (by omega)
  rw [d1, d2]

theorem aggregate_labels_characterization (L h : Nat) (labels : List (List Bool))
    (hrow : ∀ row ∈ labels, row.length = L) (hh2 : 1 < h) :
    aggregate_labels L labels h
      = labels.map (fun row => (List.range ((L + h - 1) / h)).map
          (fun j => ((row.drop (j * h)).take h).any id)) := by
  unfold aggregate_labels aggregate_padded_labels
  rw [if_neg (by simp; omega)]
  by_cases hmod : L % h = 0
  · rw [if_neg (by simp [hmod])]
    apply List.map_congr_left
    intro row hrowmem
    have hlen := hrow row hrowmem
    have hc : (listChunks h (row ++ List.replicate 0 false)).length
        = (row.length + h - 1) / h := by
      simp only [List.replicate_zero, List.append_nil]
      exact listChunks_length h (by omega) _ row rfl
    have hch := chunks_map_any h (by omega) row 0 hc
    simp only [List.replicate_zero, List.append_nil] at hch
    rw [hlen] at hch
    exact hch
  · rw [if_pos (by simp [hmod])]
    rw [List.map_map]
    apply List.map_congr_left
    intro row hrowmem
    have hlen := hrow row hrowmem
    simp only [Function.comp]
    have hpadval : aggregate_pad L h = h - L % h := by
      unfold aggregate_pad
      exact pad_toNat L h (by omega) hmod
    rw [hpadval]
    have hc : (listChunks h (row ++ List.replicate (h - L % h) false)).length
        = (row.length + h - 1) / h := by
      rw [listChunks_length h (by omega) _ _ rfl, List.length_append,
        List.length_replicate, hlen]
      exact padded_count L h hh2 hmod
    have hch := chunks_map_any h (by omega) row (h - L % h) hc
    rw [hlen] at hch
    exact hch

/-- C5.  For a label matrix whose rows have the configured test duration L
as their length and any horizon h: aggregating with horizon 1 returns the
matrix unchanged, and for h greater than 1 each row becomes the list, over
the ceil(L/h) = (L + h - 1) / h consecutive non-overlapping buckets of
length h (the final partial bucket zero-padded), of the logical OR of that
row's entries in the bucket. -/
theorem c5_aggregate_labels (L h : Nat) (labels : List (List Bool))
    (hrow : ∀ row ∈ labels, row.length = L) :
    aggregate_labels L labels 1 = labels
      ∧ (1 < h → aggregate_labels L labels h
          = labels.map (fun row => (List.range ((L + h - 1) / h)).map
              (fun j => ((row.drop (j * h)).take h).any id))) :=
  ⟨rfl, fun hh2 => aggregate_labels_characterization L h labels hrow hh2⟩

/-- Single-row label matrix of length 5 used by the C5 witness. -/
def c5_labels : List (List Bool) := [[true, false, false, true, false]]

/-- Witness for C5 at a 5-day window and the month-free horizon 3. -/
theorem c5_aggregate_labels_witness :
    (∀ row ∈ c5_labels, row.length = 5)
      ∧ (aggregate_labels 5 c5_labels 1 = c5_labels
        ∧ (1 < 3 → aggregate_labels 5 c5_labels 3
            = c5_labels.map (fun row => (List.range ((5 + 3 - 1) / 3)).map
                (fun j => ((row.drop (j * 3)).take 3).any id)))) :=
  ⟨by decide, c5_aggregate_labels 5 3 c5_labels (by decide)⟩

theorem foldl_step_length {α : Type}
    (p : List α → List α → List String → Int → Nat → Bool)
    (cur : List α) (ts : List Int) (rel : List α) (rts : List Int)
    (cols : List String) (dd : Int) :
    ∀ (tfs : List (Nat × Int × Nat)) (cpp : List (List Bool)),
      (tfs.foldl (make_prediction_step p cur ts rel rts cols dd) cpp).length
        = cpp.length := by
  intro tfs
  induction tfs with
  | nil => intro cpp; rfl
  | cons e rest ih =>
    intro cpp
    rw [List.foldl_cons, ih]
    simp [make_prediction_step]

theorem foldl_step_getD_length {α : Type}
    (p : List α → List α → List String → Int → Nat → Bool)
    (cur : List α) (ts : List Int) (rel : List α) (rts : List Int)
    (cols : List String) (dd : Int) (idx : Nat) :
    ∀ (tfs : List (Nat × Int × Nat)) (cpp : List (List Bool)), idx < cpp.length →
      ((tfs.foldl (make_prediction_step p cur ts rel rts cols dd) cpp).getD idx []).length
        = (cpp.getD idx []).length + tfs.countP (fun e => e.2.2 == idx) := by
  intro tfs
  induction tfs with
  | nil => intro cpp _; simp
  | cons e rest ih =>
    intro cpp hidx
    rw [List.foldl_cons]
    rw [ih _ (by simp [make_prediction_step, hidx])]
    rw [List.countP_cons]
    by_cases he : e.2.2 = idx
    · have hbeq : (e.2.2 == idx) = true := by simp [he]
      rw [hbeq]
      unfold make_prediction_step
      rw [he]
      rw [List.getD_eq_getElem?_getD, List.getElem?_set_self (by omega),
        List.getD_eq_getElem?_getD]
      cases hx : cpp[idx]? with
      | none => exact absurd hx (by simp [hidx])
      | some v =>
        simp [hx]
        omega
    · have hbeq : (e.2.2 == idx) = false := by simp [he]
      rw [hbeq]
      unfold make_prediction_step
      rw [List.getD_eq_getElem?_getD, List.getElem?_set_ne (by omega),
        ← List.getD_eq_getElem?_getD]
      simp

theorem foldl_meta_getD_length {α : Type}
    (p : List α → List α → List String → Int → Nat → Bool)
    (cur : List α) (ts : List Int) (rel : List α) (rts : List Int)
    (cols : List String) (idx : Nat) :
    ∀ (meta : List (Int × List (Nat × Int × Nat))) (cpp : List (List Bool)),
      idx < cpp.length →
      ((meta.foldl (fun cpp dt => dt.2.foldl
          (make_prediction_step p cur ts rel rts cols dt.1) cpp) cpp).getD idx []).length
        = (cpp.getD idx []).length
          + (meta.map (fun dt => dt.2.countP (fun e => e.2.2 == idx))).sum := by
  intro meta
  induction meta with
  | nil => intro cpp _; simp
  | cons dt rest ih =>
    intro cpp hidx
    rw [List.foldl_cons]
    rw [ih _ (by rw [foldl_step_length]; exact hidx)]
    rw [foldl_step_getD_length _ _ _ _ _ _ _ idx dt.2 cpp hidx]
    simp [Nat.add_assoc]

theorem ceil_succ (L h : Nat) (hh : 0 < h) :
    (L + 1 + h - 1) / h = (L + h - 1) / h + (if L % h = 0 then 1 else 0) := by
  have hdm : h * (L / h) + L % h = L := Nat.div_add_mod L h
  by_cases hmod : L % h = 0
  · rw [if_pos hmod]
    have e1 : L + 1 + h - 1 = h + h * (L / h) := by omega
    have e2 : L + h - 1 = (h - 1) + h * (L / h) := by omega
    rw [e1, e2, Nat.add_mul_div_left _ _ hh, Nat.add_mul_div_left _ _ hh]
    have d1 : h / h = 1 := Nat.div_self hh
    have d2 : (h - 1) / h = 0 := Nat.div_eq_of_lt (by omega)
    omega
  · rw [if_neg hmod]
    have hr : 0 < L % h := Nat.pos_of_ne_zero hmod
    have hrlt : L % h < h := Nat.mod_lt L hh
    have e1 : L + 1 + h - 1 = (L % h + h) + h * (L / h) := by omega
    have e2 : L + h - 1 = (L % h + h - 1) + h * (L / h) := by omega
    rw [e1, e2, Nat.add_mul_div_left _ _ hh, Nat.add_mul_div_left _ _ hh]
    have d1 : (L % h + h) / h = 1 := Nat.div_eq_of_lt_le (by omega) (by omega)
    have d2 : (L % h + h - 1) / h = 1 := Nat.div_eq_of_lt_le (by omega) (by omega)
    omega

theorem sum_indicator_multiples (h : Nat) (hh : 0 < h) :
    ∀ L : Nat, ((List.range L).map (fun t => if t % h = 0 then (1 : Nat) else 0)).sum
      = (L + h - 1) / h := by
  intro L
  induction L with
  | zero =>
    simp
    exact (Nat.div_eq_of_lt (by omega)).symm
  | succ L2 ih =>
    rw [List.range_succ, List.map_append, List.sum_append, ih]
    rw [ceil_succ L2 h hh]
    simp

theorem countP_filterMap {α β : Type} (p : β → Bool) (f : α → Option β) :
    ∀ l : List α, (l.filterMap f).countP p
      = l.countP (fun a => ((f a).map p).getD false) := by
  intro l
  induction l with
  | nil => rfl
  | cons a l2 ih =>
    rw [List.filterMap_cons]
    cases hfa : f a with
    | none =>
      rw [List.countP_cons]
      simp [hfa, ih]
    | some b =>
      simp [List.countP_cons, hfa, ih]

theorem optionIfGetD {β : Type} (c : Prop) [Decidable c] (v : β) (p : β → Bool) :
    ((if c then some v else none).map p).getD false = if c then p v else false := by
  split <;> simp

theorem ifSomeFalseGetD (c : Prop) [Decidable c] :
    (if c then some false else none).getD false = false := by
  split <;> simp

theorem ifSomeTrueGetD (c : Prop) [Decidable c] :
    ((if c then some true else none).getD false = true) ↔ c := by
  split <;> simp [*]

theorem countP_filterMap_timeframes (t : Nat) (d : Int) (idx h : Nat)
    (hidx : idx < 4) (hh : testing_timeframes.getD idx 0 = h) :
    (testing_timeframes.enum.filterMap
        (fun it => if t % it.2 == 0 then some (it.2, d + (it.2 : Int), it.1)
          else none)).countP (fun e => e.2.2 == idx)
      = if t % h = 0 then (1 : Nat) else 0 := by
  have henum : testing_timeframes.enum = [(0, 1), (1, 7), (2, 30), (3, 365)] := rfl
  rw [henum, countP_filterMap]
  interval_cases idx <;>
    simp only [testing_timeframes, List.getD_cons_zero, List.getD_cons_succ] at hh <;>
    subst hh <;>
    simp [List.countP_cons, List.countP_nil, optionIfGetD, Nat.mod_one,
      ifSomeFalseGetD, ifSomeTrueGetD]

theorem tdwtt_getD (s : Int) (L : Nat) (t : Nat) (ht : t < L) :
    (test_dates_with_testing_timeframes s L).getD t (0, [])
      = (s + (t : Int), testing_timeframes.enum.filterMap
          (fun it => if t % it.2 == 0 then
            some (it.2, s + (t : Int) + (it.2 : Int), it.1) else none)) := by
  rw [List.getD_eq_getElem?_getD, test_dates_with_testing_timeframes, test_dates,
    List.getElem?_map, List.getElem?_enum, List.getElem?_map, List.getElem?_range ht]
  simp

theorem tdwtt_length (s : Int) (L : Nat) :
    (test_dates_with_testing_timeframes s L).length = L := by
  rw [test_dates_with_testing_timeframes, test_dates]
  simp only [List.length_map, List.enum_length, List.length_range]

theorem metadata_countP (s : Int) (L : Nat) (idx h : Nat)
    (hidx4 : idx < 4)
    (hh : testing_timeframes.getD idx 0 = h) :
    (test_dates_with_testing_timeframes s L).map
        (fun dt => dt.2.countP (fun e => e.2.2 == idx))
      = (List.range L).map (fun t => if t % h = 0 then (1 : Nat) else 0) := by
  have hlen := tdwtt_length s L
  apply List.ext_getElem
  · simp [hlen]
  · intro t h1 h2
    have htL : t < L := by simpa using h2
    rw [List.getElem_map, List.getElem_map, List.getElem_range]
    have ht2 : t < (test_dates_with_testing_timeframes s L).length := by omega
    rw [← List.getD_eq_getElem _ ((0 : Int), ([] : List (Nat × Int × Nat))) ht2]
    rw [tdwtt_getD s L t htL]
    exact countP_filterMap_timeframes t (s + (t : Int)) idx h hidx4 hh

theorem mem_filterMap_timeframes (t : Nat) (d : Int) (idx h : Nat)
    (hidx4 : idx < 4) (hh : testing_timeframes.getD idx 0 = h) :
    ((h, d + (h : Int), idx) ∈ testing_timeframes.enum.filterMap
        (fun it => if t % it.2 == 0 then
          some (it.2, d + (it.2 : Int), it.1) else none))
      ↔ t % h = 0 := by
  have henum : testing_timeframes.enum = [(0, 1), (1, 7), (2, 30), (3, 365)] := rfl
  rw [henum]
  interval_cases idx <;>
    simp only [testing_timeframes, List.getD_cons_zero, List.getD_cons_succ] at hh <;>
    subst hh <;>
    simp [List.mem_filterMap, Nat.mod_one, ite_eq_iff]

/-- C6.  For the horizon h stored at position idx of testing_timeframes
([1, 7, 30, 365]): (1) on every 0-based test-day index t the per-date
metadata contains the horizon-h entry (with prediction end date d + h) iff
t mod h = 0; (2) for every predictor and histories, make_prediction driven
by that metadata produces exactly ceil(L/h) = (L + h - 1) / h prediction
entries in slot idx; and (3) every row of the horizon-h label roll-up of a
label matrix with row length L also has length (L + h - 1) / h, so
predictions and rolled-up labels align index for index. -/
theorem c6_horizon_sampling_cadence (test_start_date : Int) (L h idx : Nat)
    (hidx : idx < testing_timeframes.length)
    (hh : testing_timeframes.getD idx 0 = h) :
    (∀ t, t < L →
      ∃ tfs, (calculate_test_date_metadata test_start_date L).2.getD t (0, [])
          = (test_start_date + (t : Int), tfs)
        ∧ ((h, test_start_date + (t : Int) + (h : Int), idx) ∈ tfs ↔ t % h = 0))
    ∧ (∀ (α : Type) (p : List α → List α → List String → Int → Nat → Bool)
        (cur : List α) (ts : List Int) (rel : List α) (rts : List Int)
        (cols : List String),
        ((make_prediction p cur ts rel rts
            (calculate_test_date_metadata test_start_date L).2 cols).getD idx []).length
          = (L + h - 1) / h)
    ∧ (∀ labels : List (List Bool), (∀ row ∈ labels, row.length = L) →
        ∀ row ∈ aggregate_labels L labels h, row.length = (L + h - 1) / h) := by
  have hidx4 : idx < 4 := by simpa [testing_timeframes] using hidx
  have hpos : 0 < h := by
    interval_cases idx <;>
      simp only [testing_timeframes, List.getD_cons_zero, List.getD_cons_succ] at hh <;>
      omega
  refine ⟨?_, ?_, ?_⟩
  · intro t ht
    refine ⟨testing_timeframes.enum.filterMap
      (fun it => if t % it.2 == 0 then
        some (it.2, test_start_date + (t : Int) + (it.2 : Int), it.1) else none), ?_, ?_⟩
    · exact tdwtt_getD test_start_date L t ht
    · exact mem_filterMap_timeframes t (test_start_date + (t : Int)) idx h hidx4 hh
  · intro α p cur ts rel rts cols
    unfold make_prediction
    have hinit : idx < (testing_timeframes.map
        (fun _ => ([] : List Bool))).length := by
      simpa [testing_timeframes] using hidx4
    rw [foldl_meta_getD_length p cur ts rel rts cols idx _ _ hinit]
    have hinitval : ((testing_timeframes.map
        (fun _ => ([] : List Bool))).getD idx []).length = 0 := by
      interval_cases idx <;> rfl
    rw [hinitval]
    have hmeta : (calculate_test_date_metadata test_start_date L).2
        = test_dates_with_testing_timeframes test_start_date L := rfl
    rw [hmeta, metadata_countP test_start_date L idx h hidx4 hh,
      sum_indicator_multiples h hpos L]
    omega
  · intro labels hrowlen row hrowmem
    by_cases hh1 : h = 1
    · subst hh1
      have hagg : aggregate_labels L labels 1 = labels := rfl
      rw [hagg] at hrowmem
      rw [hrowlen row hrowmem]
      omega
    · have hh2 : 1 < h := by omega
      rw [aggregate_labels_characterization L h labels hrowlen hh2] at hrowmem
      obtain ⟨row0, _, rfl⟩ := List.mem_map.mp hrowmem
      simp

/-- Witness for C6: the week horizon (h = 7, slot 1) on a 10-day window. -/
theorem c6_horizon_sampling_cadence_witness :
    1 < testing_timeframes.length
      ∧ testing_timeframes.getD 1 0 = 7
      ∧ ((∀ t, t < 10 →
          ∃ tfs, (calculate_test_date_metadata 0 10).2.getD t (0, [])
              = (0 + (t : Int), tfs)
            ∧ ((7, 0 + (t : Int) + ((7 : Nat) : Int), 1) ∈ tfs ↔ t % 7 = 0))
        ∧ (∀ (α : Type) (p : List α → List α → List String → Int → Nat → Bool)
            (cur : List α) (ts : List Int) (rel : List α) (rts : List Int)
            (cols : List String),
            ((make_prediction p cur ts rel rts
                (calculate_test_date_metadata 0 10).2 cols).getD 1 []).length
              = (10 + 7 - 1) / 7)
        ∧ (∀ labels : List (List Bool), (∀ row ∈ labels, row.length = 10) →
            ∀ row ∈ aggregate_labels 10 labels 7, row.length = (10 + 7 - 1) / 7)) :=
  ⟨by decide, by decide, c6_horizon_sampling_cadence 0 10 7 1 (by decide) (by decide)⟩

/-- One row of the per-key event array handed to the predictors
(random_forest.py reads the key column and predict.py the value_valid_from
column of the numpy rows). -/
structure Row where
  key : String
  value_valid_from : Int
  deriving DecidableEq, Repr, Inhabited

/-- RandomForestPredictor._should_make_prediction (random_forest.py lines
113-120): False on an empty history, False when the history's key has no
fitted regressor (the regressors dict is modelled by its list of fitted
keys), True otherwise. -/
def RandomForestPredictor.should_make_prediction (regressors : List String)
    (data_key : List Row) : Bool :=
  if data_key.length = 0 then false
  else if ¬ (data_key.headD default).key ∈ regressors then false
  else true

/-- Modelled from the spec: RegressionPredictor.predict_timeframe is not
under src/ (the predictor.py in src/ lacks the CachedPredictor and
RegressionPredictor classes random_forest.py imports); per the spec, a
predictor asked about a key it never fit a model for abstains (predicts no
change) rather than erroring, so the wrapper returns False whenever
_should_make_prediction does and otherwise defers to the fitted model. -/
def RegressionPredictor.predict_timeframe
    (predictNext : List Row → Int → Nat → Bool) (regressors : List String)
    (data_key : List Row) (current_day : Int) (timeframe : Nat) : Bool :=
  if RandomForestPredictor.should_make_prediction regressors data_key then
    predictNext data_key current_day timeframe
  else false

/-- DummyPredictor.next_change (predictor.py lines 68-80), timestamps as
rational day numbers: None for fewer than two timestamps, otherwise the
last timestamp plus the mean gap (np.mean modelled exactly over the
rationals), truncated to a calendar date by the floor. -/
def DummyPredictor.next_change (previous_change_timestamps : List ℚ) : Option Int :=
  if previous_change_timestamps.length < 2 then none
  else
    let diffs := (previous_change_timestamps.tail.zip
      previous_change_timestamps).map (fun p => p.1 - p.2)
    let mean_time_to_change : ℚ := diffs.sum / (diffs.length : ℚ)
    some ⌊previous_change_timestamps.getLastD 0 + mean_time_to_change⌋

/-- DummyPredictor.predict_timeframe (predictor.py lines 60-66): False when
next_change is None, otherwise whether the predicted date is within one day
of the current day. -/
def DummyPredictor.predict_timeframe (timestamps : List ℚ) (current_day : Int)
    (_timeframe : Nat) : Bool :=
  match DummyPredictor.next_change timestamps with
  | none => false
  | some pred => decide (pred - current_day ≤ 1)

/-- C9.  A predictor asked to predict without a fitted model abstains
rather than raising: _should_make_prediction is False on an empty history
and False when the history's key is absent from the fitted regressor map;
whenever it is False the (spec-modelled) predict_timeframe wrapper returns
False without consulting the model; and DummyPredictor.predict_timeframe
returns False whenever fewer than two historical timestamps exist. -/
theorem c9_abstain_without_model (regressors : List String) (data_key : List Row)
    (predictNext : List Row → Int → Nat → Bool) (current_day : Int)
    (timeframe : Nat) (timestamps : List ℚ) :
    (data_key = [] →
      RandomForestPredictor.should_make_prediction regressors data_key = false)
      ∧ ((data_key.headD default).key ∉ regressors →
        RandomForestPredictor.should_make_prediction regressors data_key = false)
      ∧ (RandomForestPredictor.should_make_prediction regressors data_key = false →
        RegressionPredictor.predict_timeframe predictNext regressors data_key
          current_day timeframe = false)
      ∧ (timestamps.length < 2 →
        DummyPredictor.predict_timeframe timestamps current_day timeframe = false) := by
  refine ⟨?_, ?_, ?_, ?_⟩
  · intro hnil
    subst hnil
    rfl
  · intro hkey
    simp only [RandomForestPredictor.should_make_prediction]
    split
    · rfl
    · rfl
  · intro hfalse
    unfold RegressionPredictor.predict_timeframe
    rw [hfalse]
    rfl
  · intro hshort
    unfold DummyPredictor.predict_timeframe DummyPredictor.next_change
    rw [if_pos hshort]

/-- Witness for C9: an empty history, a history under an unfitted key, and
a single-timestamp dummy history. -/
theorem c9_abstain_without_model_witness :
    (([] : List Row) = []
        ∧ RandomForestPredictor.should_make_prediction ["k1"] [] = false)
      ∧ ((Row.mk "k2" 3 :: []).headD default).key ∉ ["k1"]
      ∧ RandomForestPredictor.should_make_prediction ["k1"] [Row.mk "k2" 3] = false
      ∧ RegressionPredictor.predict_timeframe (fun _ _ _ => true) ["k1"]
          [Row.mk "k2" 3] 0 7 = false
      ∧ ([(1 : ℚ) / 2] : List ℚ).length < 2
      ∧ DummyPredictor.predict_timeframe [(1 : ℚ) / 2] 0 7 = false := by
  have h1 := (c9_abstain_without_model ["k1"] [] (fun _ _ _ => true) 0 7 []).1 rfl
  have h2 := (c9_abstain_without_model ["k1"] [Row.mk "k2" 3]
    (fun _ _ _ => true) 0 7 []).2.1 (by decide)
  have h3 := (c9_abstain_without_model ["k1"] [Row.mk "k2" 3]
    (fun _ _ _ => true) 0 7 []).2.2.1 h2
  have h4 := (c9_abstain_without_model ["k1"] [Row.mk "k2" 3]
    (fun _ _ _ => true) 0 7 [(1 : ℚ) / 2]).2.2.2 (by decide)
  exact ⟨⟨rfl, h1⟩, by decide, h2, h3, by decide, h4⟩

